import Mathlib

/-!
Verification of the news.xyz ingestion-to-retention core: identity
resolution (dedup.rs), the SQLite article store (news-server db.rs), the
DynamoDB article store (news-core dynamo.rs), popularity counters and the
two retention passes, and the title-similarity clusterer (grouping.rs).
Rust sources are shallowly embedded as executable Lean functions; stateful
SQLite and DynamoDB operations become explicit functions on a list of rows.
-/

namespace NewsXyz

/-! ## Generic helpers: byte-lexicographic string order, insertion sort -/

/-- Strict lexicographic order on character lists comparing Unicode scalar
values. Models the SQLite BINARY collation on TEXT columns: byte order on
UTF-8 agrees with scalar-value order. -/
def listLtB : List Char → List Char → Bool
  | [], [] => false
  | [], _ :: _ => true
  | _ :: _, [] => false
  | a :: as, b :: bs =>
    if a.toNat < b.toNat then true
    else if b.toNat < a.toNat then false
    else listLtB as bs

/-- Strict order on strings as SQLite compares TEXT values. -/
def strLtB (a b : String) : Bool := listLtB a.data b.data

/-- Insertion step for insertion sort over a boolean total preorder. -/
def insertLe {α : Type} (le : α → α → Bool) (a : α) : List α → List α
  | [] => [a]
  | b :: bs => if le a b then a :: b :: bs else b :: insertLe le a bs

/-- Insertion sort. Models the deterministic result of a SQL ORDER BY
clause: any sorting algorithm producing the ordered sequence is a faithful
model of the ORDER BY semantics (the embedding never depends on stability
because the orders used have no ties under the stated hypotheses). -/
def sortBy {α : Type} (le : α → α → Bool) : List α → List α
  | [] => []
  | a :: as => insertLe le a (sortBy le as)


/-! ## Data model

`Category` and `Article` embed news-core models.rs. `Row` embeds one row of
the SQLite articles table of news-server db.rs (the columns the verified
operations touch). Timestamps are kept in their stored RFC3339 text form
(chrono serializes with to_rfc3339 on insert, and parsing then re-serializing
that canonical form is the identity, so row_to_article and encode_cursor act
as the identity on the text). The REAL column popularity_score always holds
0.7 * view_count + 0.3 * click_count, so the embedding stores it exactly as
the integer score10 = 7 * view_count + 3 * click_count (the score in tenths);
every comparison the code performs on the REAL column is order-equivalent to
the same comparison on score10. -/

inductive Category
  | general
  | tech
  | business
  | entertainment
  | sports
  | science
  | podcast
deriving DecidableEq, Repr

/-- Category.as_str from models.rs. -/
def Category.asStr : Category → String
  | .general => "general"
  | .tech => "tech"
  | .business => "business"
  | .entertainment => "entertainment"
  | .sports => "sports"
  | .science => "science"
  | .podcast => "podcast"

/-- The Article struct of news-core models.rs. -/
structure Article where
  id : String
  category : Category
  title : String
  url : String
  description : Option String
  imageUrl : Option String
  source : String
  publishedAt : String
  fetchedAt : String
  groupId : Option String
  groupCount : Option Nat
deriving DecidableEq, Repr

/-- One row of the SQLite articles table (db.rs schema), restricted to the
columns read or written by the verified operations. -/
structure Row where
  id : String
  category : Category
  title : String
  url : String
  description : Option String
  imageUrl : Option String
  source : String
  publishedAt : String
  fetchedAt : String
  groupId : Option String
  groupCount : Option Nat
  viewCount : Int
  clickCount : Int
  score10 : Int
deriving DecidableEq, Repr

/-- row_to_article from db.rs: project a stored row back to an Article
(group_id and group_count columns are read; counters are not). -/
def rowToArticle (r : Row) : Article :=
  { id := r.id, category := r.category, title := r.title, url := r.url
    description := r.description, imageUrl := r.imageUrl, source := r.source
    publishedAt := r.publishedAt, fetchedAt := r.fetchedAt
    groupId := r.groupId, groupCount := r.groupCount }

/-! ## Cursor codec: base64 (URL_SAFE_NO_PAD) and the JSON pair

encode_cursor serializes the JSON object with serde_json (BTreeMap key
order, so "i" precedes "p") and base64-encodes it with the URL-safe
alphabet, no padding. decode_cursor inverts this, returning none on any
malformed input. The embedding works on bytes as Nat values below 256.
The JSON model handles objects of plain string pairs without escape
sequences or insignificant whitespace, which covers every value
encode_cursor produces for fields made of plain characters; inputs using
escapes are treated as unparseable. -/

def b64Alphabet : List Char :=
  "ABCDEFGHIJKLMNOPQRSTUVWXYZabcdefghijklmnopqrstuvwxyz0123456789-_".data

def b64Char (n : Nat) : Char := b64Alphabet.getD n 'A'

def b64Index (c : Char) : Option Nat := b64Alphabet.findIdx? (fun x => x = c)

def base64Encode : List Nat → List Char
  | [] => []
  | [b0] => [b64Char (b0 / 4), b64Char (b0 % 4 * 16)]
  | [b0, b1] => [b64Char (b0 / 4), b64Char (b0 % 4 * 16 + b1 / 16),
                 b64Char (b1 % 16 * 4)]
  | b0 :: b1 :: b2 :: rest =>
    b64Char (b0 / 4) :: b64Char (b0 % 4 * 16 + b1 / 16) ::
    b64Char (b1 % 16 * 4 + b2 / 64) :: b64Char (b2 % 64) :: base64Encode rest

/-- base64 decoding, URL-safe alphabet, no padding accepted, nonzero
trailing bits rejected (the defaults of the base64 crate engine used). -/
def base64Decode : List Char → Option (List Nat)
  | [] => some []
  | [_] => none
  | [c0, c1] =>
    match b64Index c0, b64Index c1 with
    | some s0, some s1 =>
      if s1 % 16 = 0 then some [s0 * 4 + s1 / 16] else none
    | _, _ => none
  | [c0, c1, c2] =>
    match b64Index c0, b64Index c1, b64Index c2 with
    | some s0, some s1, some s2 =>
      if s2 % 4 = 0 then some [s0 * 4 + s1 / 16, s1 % 16 * 16 + s2 / 4]
      else none
    | _, _, _ => none
  | c0 :: c1 :: c2 :: c3 :: rest =>
    match b64Index c0, b64Index c1, b64Index c2, b64Index c3 with
    | some s0, some s1, some s2, some s3 =>
      match base64Decode rest with
      | some bs =>
        some ((s0 * 4 + s1 / 16) :: (s1 % 16 * 16 + s2 / 4) ::
              (s2 % 4 * 64 + s3) :: bs)
      | none => none
    | _, _, _, _ => none

/-- UTF-8 encoding of one scalar value. -/
def utf8EncodeChar (c : Char) : List Nat :=
  let n := c.toNat
  if n < 0x80 then [n]
  else if n < 0x800 then [0xC0 + n / 64, 0x80 + n % 64]
  else if n < 0x10000 then [0xE0 + n / 4096, 0x80 + n / 64 % 64, 0x80 + n % 64]
  else [0xF0 + n / 262144, 0x80 + n / 4096 % 64, 0x80 + n / 64 % 64, 0x80 + n % 64]

def utf8Encode (s : String) : List Nat := (s.data.map utf8EncodeChar).flatten

def isContByte (b : Nat) : Bool := 0x80 ≤ b && b < 0xC0

def validScalar (n : Nat) : Bool := n < 0xD800 || (0xE000 ≤ n && n ≤ 0x10FFFF)

/-- UTF-8 decoding (fuel-driven loop; fuel bounds the byte count). Surrogate
and out-of-range scalars are rejected; overlong forms are not detected,
which only affects byte streams no encoder produces. -/
def utf8DecodeLoop : Nat → List Nat → Option (List Char)
  | _, [] => some []
  | 0, _ :: _ => none
  | fuel + 1, b :: rest =>
    if b < 0x80 then
      match utf8DecodeLoop fuel rest with
      | some cs => some (Char.ofNat b :: cs)
      | none => none
    else if 0xC0 ≤ b && b < 0xE0 then
      match rest with
      | b1 :: rest1 =>
        if isContByte b1 then
          let n := (b - 0xC0) * 64 + (b1 - 0x80)
          if validScalar n then
            match utf8DecodeLoop fuel rest1 with
            | some cs => some (Char.ofNat n :: cs)
            | none => none
          else none
        else none
      | [] => none
    else if 0xE0 ≤ b && b < 0xF0 then
      match rest with
      | b1 :: b2 :: rest2 =>
        if isContByte b1 && isContByte b2 then
          let n := (b - 0xE0) * 4096 + (b1 - 0x80) * 64 + (b2 - 0x80)
          if validScalar n then
            match utf8DecodeLoop fuel rest2 with
            | some cs => some (Char.ofNat n :: cs)
            | none => none
          else none
        else none
      | _ => none
    else if 0xF0 ≤ b && b < 0xF8 then
      match rest with
      | b1 :: b2 :: b3 :: rest3 =>
        if isContByte b1 && isContByte b2 && isContByte b3 then
          let n := (b - 0xF0) * 262144 + (b1 - 0x80) * 4096 +
                   (b2 - 0x80) * 64 + (b3 - 0x80)
          if validScalar n then
            match utf8DecodeLoop fuel rest3 with
            | some cs => some (Char.ofNat n :: cs)
            | none => none
          else none
        else none
      | _ => none
    else none

def utf8Decode (bs : List Nat) : Option (List Char) :=
  utf8DecodeLoop bs.length bs

/-- Read a JSON string body up to the closing quote. Escape sequences make
the input unparseable in this model. -/
def jsonStringChars : List Char → Option (List Char × List Char)
  | [] => none
  | c :: rest =>
    if c = '"' then some ([], rest)
    else if c = '\\' then none
    else
      match jsonStringChars rest with
      | some (s, r) => some (c :: s, r)
      | none => none

/-- Parse the members of a JSON object of string values, positioned after
the opening brace, consuming the closing brace and requiring end of input. -/
def jsonPairsLoop : Nat → List Char → Option (List (String × String))
  | 0, _ => none
  | fuel + 1, l =>
    match l with
    | '"' :: rest =>
      match jsonStringChars rest with
      | some (k, r1) =>
        match r1 with
        | ':' :: '"' :: r2 =>
          match jsonStringChars r2 with
          | some (v, r3) =>
            match r3 with
            | ',' :: r4 =>
              match jsonPairsLoop fuel r4 with
              | some ps => some ((String.mk k, String.mk v) :: ps)
              | none => none
            | ['}'] => some [(String.mk k, String.mk v)]
            | _ => none
          | none => none
        | _ => none
      | none => none
    | _ => none

def parseJsonObj (l : List Char) : Option (List (String × String)) :=
  match l with
  | '{' :: '}' :: [] => some []
  | '{' :: rest => jsonPairsLoop (rest.length + 1) rest
  | _ => none

def jsonLookup (pairs : List (String × String)) (k : String) : Option String :=
  match pairs.find? (fun kv => kv.1 = k) with
  | some kv => some kv.2
  | none => none

/-- encode_cursor from db.rs. -/
def encodeCursor (a : Article) : String :=
  String.mk (base64Encode (utf8Encode
    ("\x7b\"i\":\"" ++ a.id ++ "\",\"p\":\"" ++ a.publishedAt ++ "\"\x7d")))

/-- decode_cursor from db.rs: base64 decode, JSON parse, extract the "p"
and "i" string members; none on any failure. -/
def decodeCursor (c : String) : Option (String × String) :=
  match base64Decode c.data with
  | none => none
  | some bytes =>
    match utf8Decode bytes with
    | none => none
    | some chars =>
      match parseJsonObj chars with
      | none => none
      | some pairs =>
        match jsonLookup pairs "p", jsonLookup pairs "i" with
        | some p, some i => some (p, i)
        | _, _ => none

/-! ## SQLite store operations (db.rs) -/

/-- The row INSERT OR IGNORE writes: the nine inserted columns from the
Article, with the counter columns at their schema defaults. -/
def newRow (a : Article) : Row :=
  { id := a.id, category := a.category, title := a.title, url := a.url
    description := a.description, imageUrl := a.imageUrl, source := a.source
    publishedAt := a.publishedAt, fetchedAt := a.fetchedAt
    groupId := none, groupCount := none
    viewCount := 0, clickCount := 0, score10 := 0 }

/-- insert_article from db.rs: INSERT OR IGNORE keyed on the id primary
key; returns whether a row was inserted. -/
def insertArticle (db : List Row) (a : Article) : List Row × Bool :=
  if db.any (fun r => r.id = a.id) then (db, false)
  else (db ++ [newRow a], true)

/-- insert_articles from db.rs, with the per-item call abstracted exactly as
the loop uses it: each item runs insertOne on the current state; an Ok true
increments the count; the question-mark operator returns the first error to
the caller, so later items are not attempted. -/
def insertArticlesRun {σ ε : Type} (insertOne : σ → Article → σ × Except ε Bool)
    (st : σ) : List Article → σ × Except ε Nat
  | [] => (st, Except.ok 0)
  | a :: rest =>
    match insertOne st a with
    | (st1, Except.error e) => (st1, Except.error e)
    | (st1, Except.ok inserted) =>
      match insertArticlesRun insertOne st1 rest with
      | (st2, Except.error e) => (st2, Except.error e)
      | (st2, Except.ok n) => (st2, Except.ok (if inserted then n + 1 else n))

/-- insert_articles over the in-memory SQLite model, where the per-item
insert itself cannot fail. -/
def insertArticles (db : List Row) (articles : List Article) : List Row × Nat :=
  match insertArticlesRun (ε := Empty) (fun s a => ((insertArticle s a).1,
      Except.ok (insertArticle s a).2)) db articles with
  | (st, Except.ok n) => (st, n)
  | (st, Except.error e) => (st, nomatch e)

/-- Sort order of "ORDER BY published_at DESC, id DESC": r comes no later
than s. -/
def rowLeB (r s : Row) : Bool :=
  strLtB s.publishedAt r.publishedAt ||
    (s.publishedAt = r.publishedAt &&
      (strLtB s.id r.id || s.id = r.id))

/-- The keyset condition of the cursor WHERE clause:
published_at < cpub OR (published_at = cpub AND id < cid). -/
def cursorLtB (r : Row) (cpub cid : String) : Bool :=
  strLtB r.publishedAt cpub ||
    (r.publishedAt = cpub && strLtB r.id cid)

/-- Does the row match the optional category filter. -/
def catMatch (category : Option Category) (r : Row) : Bool :=
  match category with
  | some c => r.category = c
  | none => true

/-- query_articles from db.rs. The cursor is decoded with a fallback to the
empty pair; a nonempty decoded published_at component activates the keyset
condition. Rows matching the WHERE clause are ordered by published_at DESC,
id DESC; limit + 1 rows are fetched; when the extra row exists, the page is
truncated to limit and next_cursor is built from the last returned item. -/
def queryArticles (db : List Row) (category : Option Category) (limit : Int)
    (cursor : Option String) : List Article × Option String :=
  let cp : String × String :=
    match cursor with
    | some c => (decodeCursor c).getD ("", "")
    | none => ("", "")
  let hasCursor := cp.1 ≠ ""
  let matching := db.filter (fun r =>
    catMatch category r && (if hasCursor then cursorLtB r cp.1 cp.2 else true))
  let sorted := sortBy rowLeB matching
  let fetched := sorted.take (limit + 1).toNat
  let articles := fetched.map rowToArticle
  if (articles.length : Int) > limit then
    let truncated := articles.take limit.toNat
    (truncated, truncated.getLast?.map encodeCursor)
  else (articles, none)

/-- increment_view_count from db.rs: add 1 to view_count of rows with the
id, recompute popularity_score from the counters, then read back the
view_count of the first row with the id (an error when no row exists). -/
def incrementViewCount (db : List Row) (articleId : String) :
    List Row × Except String Int :=
  let db1 := db.map (fun r =>
    if r.id = articleId then { r with viewCount := r.viewCount + 1 } else r)
  let db2 := db1.map (fun r =>
    if r.id = articleId then
      { r with score10 := 7 * r.viewCount + 3 * r.clickCount } else r)
  match db2.find? (fun r => r.id = articleId) with
  | some r => (db2, Except.ok r.viewCount)
  | none => (db2, Except.error "Get view count: query returned no rows")

/-- increment_click_count from db.rs: the same with the click counter. -/
def incrementClickCount (db : List Row) (articleId : String) :
    List Row × Except String Int :=
  let db1 := db.map (fun r =>
    if r.id = articleId then { r with clickCount := r.clickCount + 1 } else r)
  let db2 := db1.map (fun r =>
    if r.id = articleId then
      { r with score10 := 7 * r.viewCount + 3 * r.clickCount } else r)
  match db2.find? (fun r => r.id = articleId) with
  | some r => (db2, Except.ok r.clickCount)
  | none => (db2, Except.error "Get click count: query returned no rows")

/-- Is the row older than the cutoff timestamp (published_at < cutoff as
SQLite TEXT comparison). The Rust code computes the cutoff from the wall
clock as now minus the horizon; the embedding takes the cutoff directly. -/
def olderThan (cutoff : String) (r : Row) : Bool :=
  strLtB r.publishedAt cutoff

/-- degrade_old_unpopular_images from db.rs: the median popularity among
rows older than the cutoff with positive score (value at offset count / 2
of the ascending score order, defaulting to 0 when no such row exists);
then clear image_url on every older row with 0 < score < median that still
has an image. Returns the new table and the number of rows changed. -/
def degradeOldUnpopularImages (cutoff : String) (db : List Row) :
    List Row × Nat :=
  let oldPos := db.filter (fun r => olderThan cutoff r && 0 < r.score10)
  let sortedScores := sortBy (fun a b : Int => a ≤ b) (oldPos.map (·.score10))
  let median := ((sortedScores.drop (oldPos.length / 2)).head?).getD 0
  let target := fun r => olderThan cutoff r && r.score10 < median &&
    0 < r.score10 && r.imageUrl.isSome
  (db.map (fun r => if target r then { r with imageUrl := none } else r),
   db.countP target)

/-- cleanup_old_articles_bottom_80 from db.rs: the popularity value at
offset count * 20 / 100 of the descending score order over rows older than
the cutoff (defaulting to 0 when absent); then delete every older row with
score strictly below that value. Returns the remaining table and the number
of deleted rows. -/
def cleanupOldArticlesBottom80 (cutoff : String) (db : List Row) :
    List Row × Nat :=
  let old := db.filter (olderThan cutoff)
  let sortedScores := sortBy (fun a b : Int => b ≤ a) (old.map (·.score10))
  let pct20 := ((sortedScores.drop (old.length * 20 / 100)).head?).getD 0
  let target := fun r => olderThan cutoff r && r.score10 < pct20
  (db.filter (fun r => ! target r), db.countP target)

/-! ## DynamoDB store operations (news-core dynamo.rs)

The cloud store is a table whose primary key is the (category, sk) pair
with sk = published_at in RFC3339 form, then "#", then the article id. The
embedding keeps the stored Article values in a list keyed by that pair; the
TTL attribute and the GSI projection carry no information relevant to the
claims and are omitted. -/

/-- sort_key from dynamo.rs. -/
def sortKey (a : Article) : String := a.publishedAt ++ "#" ++ a.id

/-- put_article from dynamo.rs: PutItem with the condition expression
attribute_not_exists(sk), which succeeds exactly when no item with the same
(category, sk) primary key exists; a conditional check failure is mapped to
Ok false. -/
def putArticle (store : List Article) (a : Article) : List Article × Bool :=
  if store.any (fun b => b.category = a.category && sortKey b = sortKey a) then
    (store, false)
  else (store ++ [a], true)

/-- put_articles from dynamo.rs, with the per-item call abstracted exactly
as the loop uses it: Ok true increments the count, Ok false is skipped, an
item error is logged and skipped without touching the count or aborting. -/
def putArticlesRun {σ ε : Type} (putOne : σ → Article → σ × Except ε Bool)
    (st : σ) : List Article → σ × Nat
  | [] => (st, 0)
  | a :: rest =>
    match putOne st a with
    | (st1, Except.error _) => putArticlesRun putOne st1 rest
    | (st1, Except.ok inserted) =>
      match putArticlesRun putOne st1 rest with
      | (st2, n) => (st2, if inserted then n + 1 else n)

/-- The descending sort-key order a DynamoDB query reads with
scan_index_forward(false): a comes no later than b when sk(b) ≤ sk(a). -/
def dynamoLeB (a b : Article) : Bool :=
  strLtB (sortKey b) (sortKey a) || sortKey b = sortKey a

/-- query_articles from dynamo.rs together with the DynamoDB service
semantics it invokes. The partition is the category (or the gsi_pk = ALL
partition of the all-articles index, which covers every item), read newest
first. The service returns at most limit items, starting strictly after
the exclusive start key when one is given, and reports last_evaluated_key
exactly when the read stopped at the limit rather than at the end of the
key range — in particular also when the limit-th item was the final one.
query_articles passes limit through unchanged (no limit + 1 fetch, no
truncation) and emits next_cursor whenever last_evaluated_key is present.
dynamo.rs wraps the key in a base64 JSON codec; the embedding passes the
decoded sort key directly, which loses nothing relevant to the claims. -/
def dynamoQueryArticles (store : List Article) (cat : Option Category)
    (limit : Nat) (startKey : Option String) :
    List Article × Option String :=
  let part := sortBy dynamoLeB (store.filter (fun a =>
    match cat with
    | some c => a.category = c
    | none => true))
  let avail := match startKey with
    | some k => part.filter (fun a => strLtB (sortKey a) k)
    | none => part
  let items := avail.take limit
  let nextKey := if 0 < limit && limit ≤ avail.length then
      items.getLast?.map sortKey
    else none
  (items, nextKey)

/-! ## Similarity clusterer (news-core grouping.rs)

Titles are compared by the Jaccard index of their character-trigram sets
(HashSet semantics embedded as Finset). The similarity value is modeled in
exact rational arithmetic; the Rust code divides two set cardinalities as
f64, and the grouping claims proved here do not depend on the rounding of
that quotient. The disjoint-set arrays use fuel-bounded recursion for the
path-compressing find: the fuel (the element count) can never be exhausted
on a well-formed parent forest, and the partition property proved below
holds for every find result regardless. -/

/-- All contiguous 3-character windows of a character list. -/
def windows3 : List Char → List String
  | a :: b :: c :: rest => String.mk [a, b, c] :: windows3 (b :: c :: rest)
  | _ => []

/-- trigrams from grouping.rs: the set of character trigrams, the whole
string as a single token when shorter than 3 characters, empty for the
empty string. -/
def trigrams (s : String) : Finset String :=
  if s.data.length < 3 then
    if s.data.isEmpty then ∅ else {String.mk s.data}
  else (windows3 s.data).toFinset

/-- similarity from grouping.rs: Jaccard index of the trigram sets, with
two empty sets similar at 1 and an empty union guarded to 0. -/
def similarity (a b : String) : ℚ :=
  let ta := trigrams a
  let tb := trigrams b
  if ta = ∅ ∧ tb = ∅ then 1
  else
    let inter := (ta ∩ tb).card
    let uni := (ta ∪ tb).card
    if uni = 0 then 0 else (inter : ℚ) / (uni : ℚ)

/-- find from grouping.rs: root lookup with path compression, fuel-bounded. -/
def ufFind : Nat → Array Nat → Nat → Array Nat × Nat
  | 0, parent, i => (parent, i)
  | fuel + 1, parent, i =>
    let p := parent.getD i i
    if p = i then (parent, i)
    else
      let (parent1, r) := ufFind fuel parent p
      (parent1.setD i r, r)

/-- union from grouping.rs. -/
def ufUnion (fuel : Nat) (parent : Array Nat) (a b : Nat) : Array Nat :=
  let (p1, ra) := ufFind fuel parent a
  let (p2, rb) := ufFind fuel p1 b
  if ra = rb then p2 else p2.setD rb ra

/-- The pairwise comparison loops of group_articles: for every i < j below
n, union i and j when similarity of their titles reaches the threshold. -/
def groupPairs (titles : List String) (threshold : ℚ) (parent : Array Nat) :
    Array Nat :=
  let n := titles.length
  (List.range n).foldl (fun par i =>
    (List.range n).foldl (fun par2 j =>
      if i < j ∧ similarity (titles.getD i "") (titles.getD j "") ≥ threshold
      then ufUnion n par2 i j else par2) par) parent

/-- groups.entry(root).or_default().push(i): append i to the bucket of its
root, creating the bucket at the end on first sight. The Rust HashMap
iterates buckets in unspecified order; the embedding fixes first-seen root
order, which the partition claims do not depend on. -/
def pushBucket : List (Nat × List Nat) → Nat → Nat → List (Nat × List Nat)
  | [], r, i => [(r, [i])]
  | (r0, l0) :: rest, r, i =>
    if r0 = r then (r0, l0 ++ [i]) :: rest
    else (r0, l0) :: pushBucket rest r i

/-- The collection loop of group_articles: find the root of every index in
turn (path compression threads the parent array through) and bucket it. -/
def collectGroups (fuel : Nat) :
    Array Nat → List (Nat × List Nat) → List Nat → List (Nat × List Nat)
  | _, buckets, [] => buckets
  | parent, buckets, i :: rest =>
    let (p1, r) := ufFind fuel parent i
    collectGroups fuel p1 (pushBucket buckets r i) rest

/-- group_articles from grouping.rs. -/
def groupArticles (titles : List String) (threshold : ℚ) : List (List Nat) :=
  let n := titles.length
  let parent0 := Array.range n
  let parent1 := groupPairs titles threshold parent0
  (collectGroups n parent1 [] (List.range n)).map (·.2)

/-! ## Identity resolver (news-core dedup.rs)

article_id_from_url normalizes the URL with the url crate, then derives a
version 5 UUID of the normalized string against the hard-coded namespace.
The url crate (an external dependency) is embedded as a validated parser
for http(s)://host/path?query#fragment forms: the fragment is everything
after the first number sign, the query sits between the first question mark
and the fragment, the scheme before "://" must lowercase to http or https,
the host runs to the next slash and must be nonempty dot-separated labels
of letters, digits and hyphens with a purely alphabetic final label, the
path holds only letters, digits, slashes and - _ . ~ with no single-dot or
double-dot segments, scheme and host are lowercased on parse, and an empty
path serializes as a single slash. On this accept domain url::Url::parse
succeeds and serializes identically; everything outside it — other
schemes, ports, userinfo, IP literals and numeric final labels, percent
escapes, whitespace and control characters, characters the crate would
percent-encode, backslashes, dot segments — is unparseable HERE even where
the crate itself would trim, encode or resolve and succeed, so a
parseUrl u = some p hypothesis confines u to inputs whose crate handling
the model reproduces exactly. Unparseable input makes the code use the raw
string itself as the canonical form. Query pairs follow the
form-urlencoded split on ampersands with the value after the first equals
sign (no percent-decoding is modeled). The SHA-1 core is embedded in
full. -/

structure ParsedUrl where
  scheme : List Char
  host : List Char
  path : List Char
  query : Option (List Char)
  fragment : Option (List Char)
deriving DecidableEq, Repr

/-- Split at the first occurrence of a character: the prefix before it and,
when present, the remainder after it. -/
def splitFirst (c : Char) : List Char → List Char × Option (List Char)
  | [] => ([], none)
  | x :: xs =>
    if x = c then ([], some xs)
    else
      let (a, b) := splitFirst c xs
      (x :: a, b)

def isAsciiAlpha (c : Char) : Bool :=
  (97 ≤ c.toNat && c.toNat ≤ 122) || (65 ≤ c.toNat && c.toNat ≤ 90)

def isAsciiDigit (c : Char) : Bool := 48 ≤ c.toNat && c.toNat ≤ 57

/-- Split on every occurrence of a character (accumulator reversed per
piece). -/
def splitAllGo (c : Char) (acc : List Char) : List Char → List (List Char)
  | [] => [acc.reverse]
  | x :: xs =>
    if x = c then acc.reverse :: splitAllGo c [] xs
    else splitAllGo c (x :: acc) xs

/-- Characters allowed inside a host label of the modeled parser:
lowercase letters, digits and hyphen (validated after lowercasing). -/
def labelChar (c : Char) : Bool :=
  (97 ≤ c.toNat && c.toNat ≤ 122) || isAsciiDigit c || c = '-'

/-- The modeled host grammar: nonempty, dot-separated nonempty labels of
letters, digits and hyphens, none carrying the xn-- prefix, the final
label purely alphabetic. On this set the url crate host parser is the
identity apart from lowercasing: ports, userinfo, IP literals, percent
escapes, forbidden host characters, numeric final labels (which trigger
the crate's IPv4 processing) and xn-- labels (which trigger its IDNA
punycode processing) all fall outside and count as unparseable. -/
def validHost (host : List Char) : Bool :=
  let labs := splitAllGo '.' [] host
  !host.isEmpty &&
    (labs.all (fun lab => !lab.isEmpty && lab.all labelChar &&
        lab.take 4 ≠ ['x', 'n', '-', '-']) &&
      (labs.getLast?.getD []).all
        (fun c => 97 ≤ c.toNat && c.toNat ≤ 122))

/-- Characters allowed in the modeled path: letters, digits, slash and
- _ . ~, all of which the url crate serializes unchanged (no
percent-encoding, no backslash conversion, no whitespace stripping). -/
def pathChar (c : Char) : Bool :=
  isAsciiAlpha c || isAsciiDigit c || c = '/' || c = '-' || c = '_' ||
    c = '.' || c = '~'

/-- The modeled path grammar: allowed characters only and no single-dot or
double-dot segments, which the crate would resolve away. -/
def validPath (path : List Char) : Bool :=
  path.all pathChar &&
    (splitAllGo '/' [] path).all
      (fun seg => seg ≠ ['.'] && seg ≠ ['.', '.'])

/-- Parse scheme, host and path out of the part before query and fragment.
Only the http and https schemes with a validated host and path are
accepted: on that domain url::Url::parse succeeds and its serialization
is the identity apart from lowercasing the scheme and host and writing an
empty path as a single slash. -/
def parseCore (l : List Char) : Option (List Char × List Char × List Char) :=
  match splitFirst ':' l with
  | (schemeChars, some rest) =>
    let sch := schemeChars.map Char.toLower
    if sch = "http".data || sch = "https".data then
      match rest with
      | '/' :: '/' :: authPath =>
        let host := (authPath.takeWhile (fun c => c ≠ '/')).map Char.toLower
        let path := authPath.dropWhile (fun c => c ≠ '/')
        if validHost host && validPath path then some (sch, host, path)
        else none
      | _ => none
    else none
  | (_, none) => none

def parseUrl (s : String) : Option ParsedUrl :=
  let (beforeHash, frag) := splitFirst '#' s.data
  let (beforeQ, query) := splitFirst '?' beforeHash
  match parseCore beforeQ with
  | some (sch, host, path) =>
    some { scheme := sch, host := host, path := path
           query := query, fragment := frag }
  | none => none

/-- query_pairs: ampersand-separated key=value pairs, empty pieces skipped,
a piece without an equals sign taken as a key with empty value. -/
def queryPairsOf (q : List Char) : List (List Char × List Char) :=
  (splitAllGo '&' [] q).filterMap (fun piece =>
    if piece = [] then none
    else
      let (k, v) := splitFirst '=' piece
      some (k, v.getD []))

/-- TRACKING_PARAMS from dedup.rs. -/
def trackingParams : List String :=
  ["utm_source", "utm_medium", "utm_campaign", "utm_term", "utm_content",
   "ref", "fbclid", "gclid", "mc_cid", "mc_eid"]

def isTracking (k : List Char) : Bool :=
  trackingParams.any (fun t => t.data = k)

def joinAmp : List (List Char) → List Char
  | [] => []
  | [x] => x
  | x :: y :: rest => x ++ '&' :: joinAmp (y :: rest)

def serializeUrl (p : ParsedUrl) : List Char :=
  p.scheme ++ "://".data ++ p.host ++
  (if p.path = [] then "/".data else p.path) ++
  (match p.query with
   | none => []
   | some q => '?' :: q) ++
  (match p.fragment with
   | none => []
   | some f => '#' :: f)

/-- The normalization applied to a successfully parsed URL: drop the
fragment, filter tracking parameters out of the query pairs, clear the
query when nothing remains and otherwise reassemble key=value pairs joined
by ampersands. -/
def normalizeOf (p : ParsedUrl) : String :=
  let filtered := (queryPairsOf (p.query.getD [])).filter
    (fun kv => ! isTracking kv.1)
  let q := if filtered.isEmpty then none
    else some (joinAmp (filtered.map (fun kv => kv.1 ++ '=' :: kv.2)))
  String.mk (serializeUrl { p with query := q, fragment := none })

/-- normalize_url from dedup.rs: parse and normalize, with the raw string
itself as the canonical form when parsing fails. -/
def normalizeUrl (raw : String) : String :=
  match parseUrl raw with
  | none => raw
  | some p => normalizeOf p

/-! ### SHA-1 and version 5 UUID -/

def rotl (k n : Nat) : Nat := ((n <<< k) ||| (n >>> (32 - k))) % 2 ^ 32

/-- FIPS 180 padding: 0x80, zeros to 56 mod 64, 64-bit big-endian bit
length. -/
def sha1Pad (msg : List Nat) : List Nat :=
  let len := msg.length
  let bitLen := len * 8
  let padZeros := (119 - len % 64) % 64
  msg ++ 0x80 :: List.replicate padZeros 0 ++
    [bitLen / 2 ^ 56 % 256, bitLen / 2 ^ 48 % 256, bitLen / 2 ^ 40 % 256,
     bitLen / 2 ^ 32 % 256, bitLen / 2 ^ 24 % 256, bitLen / 2 ^ 16 % 256,
     bitLen / 2 ^ 8 % 256, bitLen % 256]

def toWords : List Nat → List Nat
  | b0 :: b1 :: b2 :: b3 :: rest =>
    (b0 * 2 ^ 24 + b1 * 2 ^ 16 + b2 * 2 ^ 8 + b3) :: toWords rest
  | _ => []

def chunks64Go : Nat → List Nat → List (List Nat)
  | _, [] => []
  | 0, _ :: _ => []
  | fuel + 1, l => l.take 64 :: chunks64Go fuel (l.drop 64)

def chunks64 (l : List Nat) : List (List Nat) := chunks64Go l.length l

/-- Message schedule extension: append words 16 up to 16 + k. -/
def sha1Extend (w : Array Nat) : Nat → Array Nat
  | 0 => w
  | k + 1 =>
    let w1 := sha1Extend w k
    let i := 16 + k
    w1.push (rotl 1 ((w1.getD (i - 3) 0) ^^^ (w1.getD (i - 8) 0) ^^^
      (w1.getD (i - 14) 0) ^^^ (w1.getD (i - 16) 0)))

structure Sha1State where
  a : Nat
  b : Nat
  c : Nat
  d : Nat
  e : Nat
deriving Repr

def sha1Round (st : Sha1State) (i wi : Nat) : Sha1State :=
  let f :=
    if i < 20 then (st.b &&& st.c) ||| ((st.b ^^^ 0xFFFFFFFF) &&& st.d)
    else if i < 40 then st.b ^^^ st.c ^^^ st.d
    else if i < 60 then (st.b &&& st.c) ||| (st.b &&& st.d) ||| (st.c &&& st.d)
    else st.b ^^^ st.c ^^^ st.d
  let k :=
    if i < 20 then 0x5A827999
    else if i < 40 then 0x6ED9EBA1
    else if i < 60 then 0x8F1BBCDC
    else 0xCA62C1D6
  { a := (rotl 5 st.a + f + st.e + k + wi) % 2 ^ 32
    b := st.a, c := rotl 30 st.b, d := st.c, e := st.d }

def sha1Block (h : Sha1State) (block : List Nat) : Sha1State :=
  let w := sha1Extend (toWords block).toArray 64
  let st := (List.range 80).foldl (fun st i => sha1Round st i (w.getD i 0)) h
  { a := (h.a + st.a) % 2 ^ 32, b := (h.b + st.b) % 2 ^ 32
    c := (h.c + st.c) % 2 ^ 32, d := (h.d + st.d) % 2 ^ 32
    e := (h.e + st.e) % 2 ^ 32 }

def wordBytes (w : Nat) : List Nat :=
  [w / 2 ^ 24 % 256, w / 2 ^ 16 % 256, w / 2 ^ 8 % 256, w % 256]

def sha1 (msg : List Nat) : List Nat :=
  let init : Sha1State :=
    { a := 0x67452301, b := 0xEFCDAB89, c := 0x98BADCFE
      d := 0x10325476, e := 0xC3D2E1F0 }
  let fin := (chunks64 (sha1Pad msg)).foldl sha1Block init
  wordBytes fin.a ++ wordBytes fin.b ++ wordBytes fin.c ++
    wordBytes fin.d ++ wordBytes fin.e

/-- Version 5 UUID bytes: first 16 bytes of the SHA-1 of namespace then
name, with the version and variant bits forced. -/
def uuidV5Bytes (ns name : List Nat) : List Nat :=
  match (sha1 (ns ++ name)).take 16 with
  | [b0, b1, b2, b3, b4, b5, b6, b7, b8, b9, b10, b11, b12, b13, b14, b15] =>
    [b0, b1, b2, b3, b4, b5, b6 % 16 + 0x50, b7, b8 % 64 + 0x80, b9,
     b10, b11, b12, b13, b14, b15]
  | l => l

def hexDigit (n : Nat) : Char := "0123456789abcdef".data.getD n '0'

def hexList (bs : List Nat) : List Char :=
  (bs.map (fun b => [hexDigit (b / 16), hexDigit (b % 16)])).flatten

/-- Hyphenated lowercase UUID text form. -/
def uuidV5String (ns name : List Nat) : String :=
  let b := uuidV5Bytes ns name
  String.mk (hexList (b.take 4) ++ '-' :: hexList ((b.drop 4).take 2) ++
    '-' :: hexList ((b.drop 6).take 2) ++ '-' :: hexList ((b.drop 8).take 2) ++
    '-' :: hexList (b.drop 10))

/-- URL_NAMESPACE from dedup.rs. -/
def urlNamespace : List Nat :=
  [0x6b, 0xa7, 0xb8, 0x10, 0x9d, 0xad, 0x11, 0xd1,
   0x80, 0xb4, 0x00, 0xc0, 0x4f, 0xd4, 0x30, 0xc8]

/-- article_id_from_url from dedup.rs. -/
def articleIdFromUrl (raw : String) : String :=
  uuidV5String urlNamespace (utf8Encode (normalizeUrl raw))

/-! ## Derived notions used by the claim statements -/

instance exceptDecEq {ε α : Type} [DecidableEq ε] [DecidableEq α] :
    DecidableEq (Except ε α) := fun x y =>
  match x, y with
  | .ok a, .ok b =>
    if h : a = b then .isTrue (by rw [h]) else .isFalse (by simp [h])
  | .error a, .error b =>
    if h : a = b then .isTrue (by rw [h]) else .isFalse (by simp [h])
  | .ok _, .error _ => .isFalse (by simp)
  | .error _, .ok _ => .isFalse (by simp)

/-- The keyset pagination key of a stored row. -/
def rowKey (r : Row) : String × String := (r.publishedAt, r.id)

/-- Strict lexicographic comparison of pagination keys: a is strictly
below b in the (published_at, id) order. -/
def pairLtB (a b : String × String) : Bool :=
  strLtB a.1 b.1 || (a.1 = b.1 && strLtB a.2 b.2)

/-- r sorts strictly before s in the descending (published_at, id) order. -/
def rowKeyGt (r s : Row) : Prop := pairLtB (rowKey s) (rowKey r) = true

/-- The same strict descending order on returned articles. -/
def artKeyGt (a b : Article) : Prop :=
  pairLtB (b.publishedAt, b.id) (a.publishedAt, a.id) = true

/-- Plain printable ASCII without quote or backslash: the character content
for which the JSON embedding of the cursor codec is exact. UUID ids and
RFC3339 timestamps satisfy this. -/
def cursorPlain (s : String) : Bool :=
  s.data.all (fun c => 32 ≤ c.toNat && c.toNat ≤ 126 && c ≠ '"' && c ≠ '\\')

/-- The decoded cursor pair a query call works with. -/
def effectiveCursor (cursor : Option String) : String × String :=
  match cursor with
  | some c => (decodeCursor c).getD ("", "")
  | none => ("", "")

/-- Page through the store with a fixed limit, following next_cursor until
none is returned, concatenating the pages (fuel-bounded loop). -/
def paginate (db : List Row) (cat : Option Category) (limit : Int) :
    Nat → Option String → List Article
  | 0, _ => []
  | fuel + 1, cur =>
    match queryArticles db cat limit cur with
    | (page, none) => page
    | (page, some c) => page ++ paginate db cat limit fuel (some c)

/-- The rows a query call considers: category scope plus the keyset
condition of the decoded cursor (inactive when the decoded published_at
component is empty). -/
def matchingRows (db : List Row) (cat : Option Category)
    (cursor : Option String) : List Row :=
  let cp := effectiveCursor cursor
  db.filter (fun r => catMatch cat r &&
    (if cp.1 ≠ "" then cursorLtB r cp.1 cp.2 else true))

/-- The page construction applied to the sorted matching rows: fetch
limit + 1, truncate to limit when the extra row exists and emit the cursor
of the last returned item. -/
def pageFrom (S : List Row) (limit : Int) : List Article × Option String :=
  let articles := (S.take (limit + 1).toNat).map rowToArticle
  if (articles.length : Int) > limit then
    (articles.take limit.toNat,
     (articles.take limit.toNat).getLast?.map encodeCursor)
  else (articles, none)

/-! ## Concrete data for the closed theorems -/

def mkArticle (i p : String) (c : Category) : Article :=
  { id := i, category := c, title := "title", url := "url"
    description := none, imageUrl := none, source := "src"
    publishedAt := p, fetchedAt := p, groupId := none, groupCount := none }

def sampleDb : List Row :=
  [newRow (mkArticle "e1" "2024-01-05T00:00:00+00:00" Category.tech),
   newRow (mkArticle "d2" "2024-01-04T00:00:00+00:00" Category.tech),
   newRow (mkArticle "c3" "2024-01-03T00:00:00+00:00" Category.science),
   newRow (mkArticle "b4" "2024-01-02T00:00:00+00:00" Category.tech),
   newRow (mkArticle "a5" "2024-01-01T00:00:00+00:00" Category.tech)]

/-- A per-item insert operation for the embedded store whose underlying
connection fails on one specific article, as a SQLite call can. -/
def insFailing (db : List Row) (a : Article) : List Row × Except String Bool :=
  if a.id = "bad" then (db, Except.error "disk I/O error")
  else ((insertArticle db a).1, Except.ok (insertArticle db a).2)

/-- A per-item put operation for the cloud store whose request fails on one
specific article, as a DynamoDB call can. -/
def putFailing (st : List Article) (a : Article) :
    List Article × Except String Bool :=
  if a.id = "bad" then (st, Except.error "network error")
  else ((putArticle st a).1, Except.ok (putArticle st a).2)

/-- A stored row with nonzero counters for exercising the counter updates. -/
def counterRow : Row :=
  { newRow (mkArticle "v1" "2024-01-01T00:00:00+00:00" Category.tech) with
      viewCount := 3, clickCount := 2, score10 := 27 }

/-- An aged row: published two hours before the reference instant
2024-01-01T12:00:00, with a given stored popularity (in tenths) and image. -/
def agedRow (i : String) (sc : Int) (img : Option String) : Row :=
  { newRow (mkArticle i "2024-01-01T10:00:00+00:00" Category.tech) with
      score10 := sc, imageUrl := img }

/-- Soft-degrade scenario with a one-hour horizon at 2024-01-01T12:00:00:
four items aged two hours, with popularity 0, 10, 4 and 5; the median
popularity among the over-horizon items is 5. -/
def scenario9Db : List Row :=
  [agedRow "zeroPop" 0 (some "imgA"), agedRow "highPop" 100 (some "imgB"),
   agedRow "lowPop" 40 (some "imgC"), agedRow "midPop" 50 (some "imgD")]

/-- The one-hour-horizon cutoff for the soft-degrade scenario. -/
def cutoff9 : String := "2024-01-01T11:00:00+00:00"

/-- A row for the hard-evict scenario: one of N = 10 items older than the
horizon, carrying popularity score j (stored as 10 j tenths). -/
def evictRow (j : Nat) : Row :=
  { newRow (mkArticle (String.mk [Char.ofNat (97 + j)])
      "2024-01-01T00:00:00+00:00" Category.tech) with score10 := 10 * j }

/-- Hard-evict scenario: ten old items with popularity scores 0..9. -/
def evictDb : List Row := (List.range 10).map evictRow

/-- The one-day-horizon cutoff for the hard-evict scenario. -/
def cutoff8 : String := "2024-01-02T12:00:00+00:00"

/-! ## General lemmas about the helper orders and insertion sort -/

theorem listLtB_irrefl : ∀ l : List Char, listLtB l l = false := by
  intro l
  induction l with
  | nil => rfl
  | cons a as ih => simp [listLtB, ih]

theorem listLtB_trans : ∀ {a b c : List Char},
    listLtB a b = true → listLtB b c = true → listLtB a c = true := by
  intro a
  induction a with
  | nil =>
    intro b c hab hbc
    cases b with
    | nil => simp [listLtB] at hab
    | cons x xs =>
      cases c with
      | nil => simp [listLtB] at hbc
      | cons y ys => simp [listLtB]
  | cons x xs ih =>
    intro b c hab hbc
    cases b with
    | nil => simp [listLtB] at hab
    | cons y ys =>
      cases c with
      | nil => simp [listLtB] at hbc
      | cons z zs =>
        simp only [listLtB] at hab hbc ⊢
        by_cases h1 : x.toNat < y.toNat
        · by_cases h2 : y.toNat < z.toNat
          · simp [show x.toNat < z.toNat by omega]
          · simp [h2] at hbc
            rcases hbc with ⟨h3, _⟩
            have : y.toNat = z.toNat := by omega
            simp [show x.toNat < z.toNat by omega]
        · simp [h1] at hab
          rcases hab with ⟨h1', hab⟩
          have hxy : x.toNat = y.toNat := by omega
          by_cases h2 : y.toNat < z.toNat
          · simp [show x.toNat < z.toNat by omega]
          · simp [h2] at hbc
            rcases hbc with ⟨h2', hbc⟩
            have hyz : y.toNat = z.toNat := by omega
            have hxz : ¬ x.toNat < z.toNat := by omega
            have hzx : ¬ z.toNat < x.toNat := by omega
            simp [hxz, hzx]
            exact ih hab hbc

theorem char_toNat_inj {a b : Char} (h : a.toNat = b.toNat) : a = b := by
  have hv : a.val = b.val := by
    have hn : a.val.toBitVec.toNat = b.val.toBitVec.toNat := h
    cases ha : a.val with | mk x =>
    cases hb : b.val with | mk y =>
    rw [ha, hb] at hn
    simp only at hn
    congr 1
    exact BitVec.toNat_injective hn
  exact Char.eq_of_val_eq hv

theorem listLtB_conn : ∀ {a b : List Char},
    listLtB a b = false → listLtB b a = false → a = b := by
  intro a
  induction a with
  | nil =>
    intro b hab _
    cases b with
    | nil => rfl
    | cons y ys => simp [listLtB] at hab
  | cons x xs ih =>
    intro b hab hba
    cases b with
    | nil => simp [listLtB] at hba
    | cons y ys =>
      simp only [listLtB] at hab hba
      by_cases h1 : x.toNat < y.toNat
      · simp [h1] at hab
      · by_cases h2 : y.toNat < x.toNat
        · simp [h1, h2] at hab hba
        · simp [h1, h2] at hab hba
          have hxy : x = y := char_toNat_inj (by omega)
          rw [hxy, ih hab hba]

theorem listLtB_asymm {a b : List Char} (h : listLtB a b = true) :
    listLtB b a = false := by
  by_contra hba
  have hba' : listLtB b a = true := by
    cases hb : listLtB b a
    · exact absurd hb hba
    · rfl
  have := listLtB_trans h hba'
  rw [listLtB_irrefl] at this
  exact Bool.noConfusion this

theorem insertLe_perm {α : Type} (le : α → α → Bool) (a : α) :
    ∀ l : List α, (insertLe le a l).Perm (a :: l) := by
  intro l
  induction l with
  | nil => simp [insertLe]
  | cons b bs ih =>
    simp only [insertLe]
    by_cases h : le a b
    · simp [h]
    · simp only [h, Bool.false_eq_true, if_false]
      exact (List.Perm.cons b ih).trans (List.Perm.swap a b bs)

theorem sortBy_perm {α : Type} (le : α → α → Bool) :
    ∀ l : List α, (sortBy le l).Perm l := by
  intro l
  induction l with
  | nil => simp [sortBy]
  | cons a as ih =>
    exact (insertLe_perm le a (sortBy le as)).trans (List.Perm.cons a ih)

theorem insertLe_pairwise {α : Type} {le : α → α → Bool}
    (htot : ∀ x y, le x y = true ∨ le y x = true)
    (htr : ∀ x y z, le x y = true → le y z = true → le x z = true)
    (a : α) : ∀ {l : List α}, List.Pairwise (fun x y => le x y = true) l →
    List.Pairwise (fun x y => le x y = true) (insertLe le a l) := by
  intro l
  induction l with
  | nil => intro _; simp [insertLe]
  | cons b bs ih =>
    intro hp
    rcases List.pairwise_cons.mp hp with ⟨hb, hbs⟩
    simp only [insertLe]
    by_cases h : le a b
    · simp only [h, if_true]
      refine List.pairwise_cons.mpr ⟨?_, hp⟩
      intro x hx
      rcases List.mem_cons.mp hx with rfl | hx
      · exact h
      · exact htr a b x h (hb x hx)
    · simp only [h, Bool.false_eq_true, if_false]
      have hba : le b a = true := by
        rcases htot a b with h' | h'
        · exact absurd h' (by simpa using h)
        · exact h'
      refine List.pairwise_cons.mpr ⟨?_, ih hbs⟩
      intro x hx
      have hx' : x ∈ a :: bs := (insertLe_perm le a bs).mem_iff.mp hx
      rcases List.mem_cons.mp hx' with rfl | hx''
      · exact hba
      · exact hb x hx''

theorem sortBy_pairwise {α : Type} {le : α → α → Bool}
    (htot : ∀ x y, le x y = true ∨ le y x = true)
    (htr : ∀ x y z, le x y = true → le y z = true → le x z = true) :
    ∀ l : List α, List.Pairwise (fun x y => le x y = true) (sortBy le l) := by
  intro l
  induction l with
  | nil => simp [sortBy]
  | cons a as ih => exact insertLe_pairwise htot htr a ih

/-- Two permuted lists that are both pairwise related by an asymmetric
relation are equal. -/
theorem perm_pairwise_eq {α : Type} {R : α → α → Prop}
    (asym : ∀ a b, R a b → ¬ R b a) {l₁ l₂ : List α}
    (hp : l₁.Perm l₂) (h₁ : List.Pairwise R l₁) (h₂ : List.Pairwise R l₂) :
    l₁ = l₂ := by
  haveI : IsAntisymm α R := ⟨fun a b h h' => absurd h' (asym a b h)⟩
  exact List.eq_of_perm_of_sorted hp h₁ h₂

/-! ## Small facts about the store operations -/

theorem insertArticle_length (db : List Row) (a : Article) :
    (insertArticle db a).1.length =
      if (insertArticle db a).2 then db.length + 1 else db.length := by
  unfold insertArticle
  by_cases h : db.any (fun r => r.id = a.id)
  · simp [h]
  · simp [h]

theorem insertArticles_cons (db : List Row) (a : Article)
    (rest : List Article) :
    insertArticles db (a :: rest) =
      ((insertArticles (insertArticle db a).1 rest).1,
       if (insertArticle db a).2 then
         (insertArticles (insertArticle db a).1 rest).2 + 1
       else (insertArticles (insertArticle db a).1 rest).2) := by
  unfold insertArticles
  simp only [insertArticlesRun]
  cases h : insertArticlesRun (ε := Empty)
      (fun s a => ((insertArticle s a).1, Except.ok (insertArticle s a).2))
      (insertArticle db a).1 rest with
  | mk st r =>
    cases r with
    | ok n => simp
    | error e => exact e.elim

/-! ## Claim theorems -/

/-- C1 (amended): the embedded store keys its idempotent insert on the id
primary key exactly as the claim states: a first insert returns true and
appends the row, an insert of an already-present id returns false and
leaves storage unchanged, and distinctness of stored ids is preserved. The
cloud store keys its conditional write on the (category, sort key) pair
with sort key published_at then id: an insert is a no-op returning false
exactly when an item with the same category, published_at and id exists,
and otherwise appends and returns true — so in the cloud store a second
insert attempt with the same id but a different published_at or category
does persist a second item. -/
theorem c1_insert_idempotent (db : List Row) (a : Article)
    (store : List Article) (b : Article) :
    ((¬ ∃ r ∈ db, r.id = a.id) →
        insertArticle db a = (db ++ [newRow a], true)) ∧
    ((∃ r ∈ db, r.id = a.id) → insertArticle db a = (db, false)) ∧
    ((db.map Row.id).Nodup → ((insertArticle db a).1.map Row.id).Nodup) ∧
    ((¬ ∃ x ∈ store, x.category = b.category ∧ sortKey x = sortKey b) →
        putArticle store b = (store ++ [b], true)) ∧
    ((∃ x ∈ store, x.category = b.category ∧ sortKey x = sortKey b) →
        putArticle store b = (store, false)) := by
  refine ⟨?_, ?_, ?_, ?_, ?_⟩
  · intro h
    have : db.any (fun r => r.id = a.id) = false := by
      rw [List.any_eq_false]
      intro r hr
      simp only [decide_eq_true_eq]
      intro hid
      exact h ⟨r, hr, hid⟩
    simp [insertArticle, this]
  · intro h
    have : db.any (fun r => r.id = a.id) = true := by
      simp only [List.any_eq_true, decide_eq_true_eq]
      exact h
    simp [insertArticle, this]
  · intro h
    by_cases hc : db.any (fun r => r.id = a.id)
    · simpa [insertArticle, hc] using h
    · have hnm : a.id ∉ db.map Row.id := by
        simp only [List.any_eq_true, decide_eq_true_eq] at hc
        push_neg at hc
        simp only [List.mem_map]
        rintro ⟨r, hr, hrid⟩
        exact hc r hr hrid
      simp only [insertArticle, hc, Bool.false_eq_true, if_false]
      simp only [List.map_append, List.map_cons, List.map_nil]
      rw [List.nodup_append]
      refine ⟨h, List.nodup_singleton _, ?_⟩
      intro x hx
      simp only [newRow, List.mem_singleton]
      intro hx1
      subst hx1
      exact hnm hx
  · intro h
    have : store.any (fun x => x.category = b.category && sortKey x = sortKey b)
        = false := by
      rw [List.any_eq_false]
      intro x hx
      simp only [Bool.and_eq_true, decide_eq_true_eq, not_and]
      intro hcat hsk
      exact h ⟨x, hx, hcat, hsk⟩
    simp [putArticle, this]
  · intro h
    have : store.any (fun x => x.category = b.category && sortKey x = sortKey b)
        = true := by
      simp only [List.any_eq_true, Bool.and_eq_true, decide_eq_true_eq]
      rcases h with ⟨x, hx, h1, h2⟩
      exact ⟨x, hx, h1, h2⟩
    simp [putArticle, this]

/-- C1 witness: a fresh insert into the empty embedded store persists the
row and reports true; re-inserting the same id (even with a different
timestamp) reports false and leaves the store unchanged. -/
theorem c1_insert_idempotent_witness :
    insertArticle [] (mkArticle "A" "2024-01-01T00:00:00+00:00" Category.tech)
      = ([newRow (mkArticle "A" "2024-01-01T00:00:00+00:00" Category.tech)],
         true) ∧
    insertArticle
        [newRow (mkArticle "A" "2024-01-01T00:00:00+00:00" Category.tech)]
        (mkArticle "A" "2024-01-02T00:00:00+00:00" Category.tech)
      = ([newRow (mkArticle "A" "2024-01-01T00:00:00+00:00" Category.tech)],
         false) :=
  ⟨(c1_insert_idempotent [] (mkArticle "A" "2024-01-01T00:00:00+00:00"
      Category.tech) [] (mkArticle "A" "2024-01-01T00:00:00+00:00"
      Category.tech)).1 (by decide),
   (c1_insert_idempotent
      [newRow (mkArticle "A" "2024-01-01T00:00:00+00:00" Category.tech)]
      (mkArticle "A" "2024-01-02T00:00:00+00:00" Category.tech) []
      (mkArticle "A" "2024-01-02T00:00:00+00:00" Category.tech)).2.1
      (by decide)⟩

/-- C1 counterexample: in the cloud store, after inserting an item, a second
insert attempt with the same id but a later published_at returns true, and
two stored items then carry that id — the stated per-id no-op fails there. -/
theorem c1_counterexample :
    (putArticle
      (putArticle [] (mkArticle "X" "2024-01-01T00:00:00+00:00"
        Category.tech)).1
      (mkArticle "X" "2024-01-02T00:00:00+00:00" Category.tech)).2 = true ∧
    ((putArticle
      (putArticle [] (mkArticle "X" "2024-01-01T00:00:00+00:00"
        Category.tech)).1
      (mkArticle "X" "2024-01-02T00:00:00+00:00" Category.tech)).1.countP
        (fun x => x.id = "X")) = 2 := by
  exact ⟨by decide, by decide⟩

/-- C5 (amended): the cloud batch put isolates a per-item failure — the
failed item is skipped and the loop continues over the remaining items with
the count untouched. The embedded batch insert counts exactly the newly
inserted rows (duplicates leave the store unchanged and are not counted),
but a per-item error aborts the loop: the error is returned and the
remaining items are never attempted. -/
theorem c5_batch_insert :
    (∀ {σ ε : Type} (put : σ → Article → σ × Except ε Bool) (st st1 : σ)
      (a : Article) (rest : List Article) (e : ε),
      put st a = (st1, Except.error e) →
      putArticlesRun put st (a :: rest) = putArticlesRun put st1 rest) ∧
    (∀ {σ ε : Type} (ins : σ → Article → σ × Except ε Bool) (st st1 : σ)
      (a : Article) (rest : List Article) (e : ε),
      ins st a = (st1, Except.error e) →
      insertArticlesRun ins st (a :: rest) = (st1, Except.error e)) ∧
    (∀ (db : List Row) (articles : List Article),
      (insertArticles db articles).1.length =
        db.length + (insertArticles db articles).2) := by
  refine ⟨?_, ?_, ?_⟩
  · intro σ ε put st st1 a rest e h
    simp only [putArticlesRun, h]
  · intro σ ε ins st st1 a rest e h
    simp only [insertArticlesRun, h]
  · intro db articles
    induction articles generalizing db with
    | nil => simp [insertArticles, insertArticlesRun]
    | cons a rest ih =>
      rw [insertArticles_cons]
      have hlen := insertArticle_length db a
      by_cases hb : (insertArticle db a).2
      · simp only [hb, if_true] at hlen ⊢
        rw [ih (insertArticle db a).1, hlen]
        omega
      · simp only [hb, Bool.false_eq_true, if_false] at hlen ⊢
        rw [ih (insertArticle db a).1, hlen]

/-- C5 witness: a failing cloud put is skipped and the batch continues to
insert the following item; a failing embedded insert aborts the batch; the
embedded batch count equals the net growth of the store. -/
theorem c5_batch_insert_witness :
    putArticlesRun putFailing []
      [mkArticle "bad" "p" Category.tech, mkArticle "g" "q" Category.tech] =
      putArticlesRun putFailing [] [mkArticle "g" "q" Category.tech] ∧
    insertArticlesRun insFailing []
      [mkArticle "bad" "p" Category.tech, mkArticle "g" "q" Category.tech] =
      ([], Except.error "disk I/O error") ∧
    (insertArticles [] [mkArticle "g" "q" Category.tech]).1.length =
      List.length ([] : List Row) +
        (insertArticles [] [mkArticle "g" "q" Category.tech]).2 :=
  ⟨c5_batch_insert.1 putFailing [] [] (mkArticle "bad" "p" Category.tech)
      [mkArticle "g" "q" Category.tech] "network error" (by decide),
   c5_batch_insert.2.1 insFailing [] [] (mkArticle "bad" "p" Category.tech)
      [mkArticle "g" "q" Category.tech] "disk I/O error" (by decide),
   c5_batch_insert.2.2 [] [mkArticle "g" "q" Category.tech]⟩

/-- C5 counterexample: in the embedded store, a batch of three items whose
second item fails returns the error instead of a count, and the third item
is never inserted — the per-item failure aborts the remaining items,
against the stated isolation. -/
theorem c5_counterexample :
    (insertArticlesRun insFailing []
      [mkArticle "g1" "p1" Category.tech, mkArticle "bad" "p2" Category.tech,
       mkArticle "g2" "p3" Category.tech]).2 =
      Except.error "disk I/O error" ∧
    ((insertArticlesRun insFailing []
      [mkArticle "g1" "p1" Category.tech, mkArticle "bad" "p2" Category.tech,
       mkArticle "g2" "p3" Category.tech]).1.any (fun r => r.id = "g2"))
      = false := by
  exact ⟨by decide, by decide⟩

/-- C6: a cursor string that fails to decode makes the query behave exactly
as if no cursor had been supplied — the page starts from the beginning and
no error is produced. -/
theorem c6_malformed_cursor (db : List Row) (cat : Option Category)
    (limit : Int) (c : String) (h : decodeCursor c = none) :
    queryArticles db cat limit (some c) = queryArticles db cat limit none := by
  simp only [queryArticles, h, Option.getD]

/-- C6 witness: a concrete malformed cursor (invalid base64) decodes to
none and yields the same page as the cursorless query. -/
theorem c6_malformed_cursor_witness :
    decodeCursor "!!!" = none ∧
    queryArticles sampleDb none 2 (some "!!!") =
      queryArticles sampleDb none 2 none :=
  ⟨by decide, c6_malformed_cursor sampleDb none 2 "!!!" (by decide)⟩

/-- C9 counterexample: in the stated scenario (one-hour horizon, items aged
two hours, median popularity 5 among the over-horizon items), the item with
popularity 0 KEEPS its image after the soft-degrade pass — the code only
degrades items with strictly positive popularity, so the claimed clearing
of the zero-popularity image does not happen. -/
theorem c9_counterexample :
    ((degradeOldUnpopularImages cutoff9 scenario9Db).1.find?
      (fun r => r.id = "zeroPop")).map Row.imageUrl = some (some "imgA") := by
  decide

/-- C9 (amended): in the same scenario, the zero-popularity item is left
untouched (zero-popularity items are exempt from soft-degrade), the
popularity-10 sibling keeps its image, an item with popularity strictly
between zero and the median has exactly its image_url cleared, and every
other row is unchanged. -/
theorem c9_soft_degrade :
    degradeOldUnpopularImages cutoff9 scenario9Db =
      ([agedRow "zeroPop" 0 (some "imgA"),
        agedRow "highPop" 100 (some "imgB"),
        { agedRow "lowPop" 40 (some "imgC") with imageUrl := none },
        agedRow "midPop" 50 (some "imgD")], 1) := by
  decide

/-! ### Lemmas for the counter updates -/

theorem mem_id_unique {db : List Row} (hids : (db.map Row.id).Nodup)
    {r s : Row} (hr : r ∈ db) (hs : s ∈ db) (h : r.id = s.id) : r = s :=
  List.inj_on_of_nodup_map hids hr hs h

theorem find_update (db : List Row) (r0 : Row)
    (hids : (db.map Row.id).Nodup) (hmem : r0 ∈ db) (u : Row → Row)
    (hu : (u r0).id = r0.id) :
    (db.map (fun r => if r.id = r0.id then u r else r)).find?
        (fun r => r.id = r0.id) = some (u r0) := by
  induction db with
  | nil => cases hmem
  | cons hd tl ih =>
    rw [List.map_cons, List.nodup_cons] at hids
    rw [List.map_cons]
    by_cases hh : hd.id = r0.id
    · have hdr : hd = r0 := by
        rcases List.mem_cons.mp hmem with h | h
        · exact h.symm
        · exact absurd (List.mem_map.mpr ⟨r0, h, hh.symm⟩) hids.1
      rw [if_pos hh, hdr]
      rw [List.find?_cons_of_pos _ (by simp [hu])]
    · have hr0tl : r0 ∈ tl := by
        rcases List.mem_cons.mp hmem with h | h
        · exact absurd (congrArg Row.id h.symm) hh
        · exact h
      rw [if_neg hh]
      rw [List.find?_cons_of_neg _ (by simp [hh])]
      exact ih hids.2 hr0tl

/-- C7: for a stored article, record_view adds exactly 1 to its view
counter, leaves the click counter and every other row unchanged,
synchronously recomputes the popularity score from the new counters, and
returns the updated view counter; record_click does the same for clicks.
The stored tenths-valued score equals the spec formula
0.7 * view_count + 0.3 * click_count after division by ten. -/
theorem c7_record_view_click (db : List Row) (r0 : Row)
    (hids : (db.map Row.id).Nodup) (hmem : r0 ∈ db) :
    incrementViewCount db r0.id =
      (db.map (fun r => if r.id = r0.id then
        { r0 with viewCount := r0.viewCount + 1
                  score10 := 7 * (r0.viewCount + 1) + 3 * r0.clickCount }
        else r),
       Except.ok (r0.viewCount + 1)) ∧
    incrementClickCount db r0.id =
      (db.map (fun r => if r.id = r0.id then
        { r0 with clickCount := r0.clickCount + 1
                  score10 := 7 * r0.viewCount + 3 * (r0.clickCount + 1) }
        else r),
       Except.ok (r0.clickCount + 1)) ∧
    ((7 * (r0.viewCount + 1) + 3 * r0.clickCount : Int) : ℚ) / 10 =
      7 / 10 * ((r0.viewCount : ℚ) + 1) + 3 / 10 * (r0.clickCount : ℚ) ∧
    ((7 * r0.viewCount + 3 * (r0.clickCount + 1) : Int) : ℚ) / 10 =
      7 / 10 * (r0.viewCount : ℚ) + 3 / 10 * ((r0.clickCount : ℚ) + 1) := by
  refine ⟨?_, ?_, by push_cast; ring, by push_cast; ring⟩
  · simp only [incrementViewCount]
    have hM :
        (db.map (fun r => if r.id = r0.id then
            { r with viewCount := r.viewCount + 1 } else r)).map
          (fun r => if r.id = r0.id then
            { r with score10 := 7 * r.viewCount + 3 * r.clickCount } else r) =
        db.map (fun r => if r.id = r0.id then
          { r0 with viewCount := r0.viewCount + 1
                    score10 := 7 * (r0.viewCount + 1) + 3 * r0.clickCount }
          else r) := by
      rw [List.map_map]
      apply List.map_congr_left
      intro r hr
      by_cases h : r.id = r0.id
      · have hrr : r = r0 := mem_id_unique hids hr hmem h
        subst hrr
        simp [Function.comp, h]
      · simp [Function.comp, h]
    rw [hM]
    have hFind :
        (db.map (fun r => if r.id = r0.id then
          { r0 with viewCount := r0.viewCount + 1
                    score10 := 7 * (r0.viewCount + 1) + 3 * r0.clickCount }
          else r)).find? (fun r => r.id = r0.id) =
        some { r0 with viewCount := r0.viewCount + 1
                       score10 := 7 * (r0.viewCount + 1) + 3 * r0.clickCount } :=
      find_update db r0 hids hmem
        (fun _ => { r0 with viewCount := r0.viewCount + 1
                            score10 := 7 * (r0.viewCount + 1) +
                              3 * r0.clickCount }) rfl
    rw [hFind]
  · simp only [incrementClickCount]
    have hM :
        (db.map (fun r => if r.id = r0.id then
            { r with clickCount := r.clickCount + 1 } else r)).map
          (fun r => if r.id = r0.id then
            { r with score10 := 7 * r.viewCount + 3 * r.clickCount } else r) =
        db.map (fun r => if r.id = r0.id then
          { r0 with clickCount := r0.clickCount + 1
                    score10 := 7 * r0.viewCount + 3 * (r0.clickCount + 1) }
          else r) := by
      rw [List.map_map]
      apply List.map_congr_left
      intro r hr
      by_cases h : r.id = r0.id
      · have hrr : r = r0 := mem_id_unique hids hr hmem h
        subst hrr
        simp [Function.comp, h]
      · simp [Function.comp, h]
    rw [hM]
    have hFind :
        (db.map (fun r => if r.id = r0.id then
          { r0 with clickCount := r0.clickCount + 1
                    score10 := 7 * r0.viewCount + 3 * (r0.clickCount + 1) }
          else r)).find? (fun r => r.id = r0.id) =
        some { r0 with clickCount := r0.clickCount + 1
                       score10 := 7 * r0.viewCount + 3 * (r0.clickCount + 1) } :=
      find_update db r0 hids hmem
        (fun _ => { r0 with clickCount := r0.clickCount + 1
                            score10 := 7 * r0.viewCount +
                              3 * (r0.clickCount + 1) }) rfl
    rw [hFind]

/-- C7 witness: on a one-row store with 3 views and 2 clicks, record_view
returns 4 and stores score 3.4 (34 tenths); record_click returns 3 and
stores score 3.0 (30 tenths). -/
theorem c7_record_view_click_witness :
    incrementViewCount [counterRow] counterRow.id =
      ([{ counterRow with viewCount := 4, score10 := 34 }], Except.ok 4) ∧
    incrementClickCount [counterRow] counterRow.id =
      ([{ counterRow with clickCount := 3, score10 := 30 }], Except.ok 3) := by
  have h := c7_record_view_click [counterRow] counterRow (by decide) (by decide)
  exact ⟨by rw [h.1]; decide, by rw [h.2.1]; decide⟩

/-! ### Lemmas for the clustering partition -/

theorem pushBucket_flatten_perm (buckets : List (Nat × List Nat))
    (r i : Nat) :
    (((pushBucket buckets r i).map Prod.snd).flatten).Perm
      ((buckets.map Prod.snd).flatten ++ [i]) := by
  induction buckets with
  | nil => simp [pushBucket]
  | cons b rest ih =>
    rcases b with ⟨r0, l0⟩
    simp only [pushBucket]
    by_cases h : r0 = r
    · simp only [h, if_true, List.map_cons, List.flatten_cons]
      rw [List.append_assoc, List.append_assoc]
      exact List.Perm.append_left l0 List.perm_append_comm
    · simp only [h, if_false, List.map_cons, List.flatten_cons]
      rw [List.append_assoc]
      exact List.Perm.append_left l0 ih

theorem collectGroups_flatten_perm (fuel : Nat) :
    ∀ (idxs : List Nat) (parent : Array Nat)
      (buckets : List (Nat × List Nat)),
    (((collectGroups fuel parent buckets idxs).map Prod.snd).flatten).Perm
      ((buckets.map Prod.snd).flatten ++ idxs) := by
  intro idxs
  induction idxs with
  | nil => intro parent buckets; simp [collectGroups]
  | cons i rest ih =>
    intro parent buckets
    simp only [collectGroups]
    rcases hf : ufFind fuel parent i with ⟨p1, r⟩
    have h1 := ih p1 (pushBucket buckets r i)
    refine h1.trans ?_
    have h2 := List.Perm.append_right rest (pushBucket_flatten_perm buckets r i)
    refine h2.trans ?_
    rw [List.append_assoc]
    exact List.Perm.refl _

theorem flatten_count_zero {gs : List (List Nat)} {k : Nat}
    (h : gs.flatten.count k = 0) : ∀ g ∈ gs, k ∉ g := by
  induction gs with
  | nil => intro g hg; cases hg
  | cons g rest ih =>
    rw [List.flatten_cons, List.count_append] at h
    intro g2 hg2
    rcases List.mem_cons.mp hg2 with rfl | hg2
    · exact List.count_eq_zero.mp (by omega)
    · exact ih (by omega) g2 hg2

theorem countP_mem_of_flatten_count_one {gs : List (List Nat)} {k : Nat}
    (h : gs.flatten.count k = 1) :
    gs.countP (fun g => decide (k ∈ g)) = 1 := by
  induction gs with
  | nil => simp at h
  | cons g rest ih =>
    rw [List.flatten_cons, List.count_append] at h
    rw [List.countP_cons]
    by_cases hm : k ∈ g
    · have hg1 : 1 ≤ g.count k := List.count_pos_iff.mpr hm
      have hr0 : rest.flatten.count k = 0 := by omega
      have : rest.countP (fun g => decide (k ∈ g)) = 0 := by
        rw [List.countP_eq_zero]
        intro g2 hg2
        simp only [decide_eq_true_eq]
        exact flatten_count_zero hr0 g2 hg2
      simp [hm, this]
    · have hg0 : g.count k = 0 := List.count_eq_zero.mpr hm
      have hrest := ih (by omega)
      simp [hm, hrest]

theorem pushBucket_nonempty (buckets : List (Nat × List Nat)) (r i : Nat)
    (h : ∀ b ∈ buckets, b.2 ≠ []) :
    ∀ b ∈ pushBucket buckets r i, b.2 ≠ [] := by
  induction buckets with
  | nil =>
    intro b hb
    simp only [pushBucket, List.mem_singleton] at hb
    subst hb
    simp
  | cons b0 rest ih =>
    rcases b0 with ⟨r0, l0⟩
    intro b hb
    simp only [pushBucket] at hb
    by_cases hr : r0 = r
    · simp only [hr, if_true] at hb
      rcases List.mem_cons.mp hb with rfl | hb2
      · simp
      · exact h b (List.mem_cons_of_mem _ hb2)
    · simp only [hr, if_false] at hb
      rcases List.mem_cons.mp hb with rfl | hb2
      · exact h _ (List.mem_cons_self _ _)
      · exact ih (fun b2 hb2 => h b2 (List.mem_cons_of_mem _ hb2)) b hb2

theorem collectGroups_nonempty (fuel : Nat) :
    ∀ (idxs : List Nat) (parent : Array Nat)
      (buckets : List (Nat × List Nat)),
    (∀ b ∈ buckets, b.2 ≠ []) →
    ∀ b ∈ collectGroups fuel parent buckets idxs, b.2 ≠ [] := by
  intro idxs
  induction idxs with
  | nil =>
    intro parent buckets h b hb
    simpa [collectGroups] using h b hb
  | cons i rest ih =>
    intro parent buckets h b hb
    simp only [collectGroups] at hb
    rcases hf : ufFind fuel parent i with ⟨p1, r⟩
    rw [hf] at hb
    exact ih p1 (pushBucket buckets r i) (pushBucket_nonempty buckets r i h) b hb

/-- C10: for every title sequence and threshold, group_articles returns a
partition of the input indices: every index below the length occurs in
exactly one returned group, and no returned group is empty. -/
theorem c10_group_partition (titles : List String) (threshold : ℚ) :
    (∀ k, k < titles.length →
      (groupArticles titles threshold).countP (fun g => decide (k ∈ g)) = 1) ∧
    (∀ g ∈ groupArticles titles threshold, g ≠ []) := by
  constructor
  · intro k hk
    simp only [groupArticles]
    apply countP_mem_of_flatten_count_one
    have hperm := collectGroups_flatten_perm titles.length
      (List.range titles.length)
      (groupPairs titles threshold (Array.range titles.length)) []
    rw [hperm.count_eq]
    simp only [List.map_nil, List.flatten_nil, List.nil_append]
    exact List.count_eq_one_of_mem (List.nodup_range _) (List.mem_range.mpr hk)
  · intro g hg
    simp only [groupArticles, List.mem_map] at hg
    rcases hg with ⟨b, hb, rfl⟩
    exact collectGroups_nonempty titles.length (List.range titles.length)
      (groupPairs titles threshold (Array.range titles.length)) []
      (by intro b2 hb2; cases hb2) b hb

/-- C10 witness: at a concrete title list and threshold, index 1 lies in
exactly one group, and that group list has no empty group. -/
theorem c10_group_partition_witness :
    (groupArticles ["aaab", "aaac", "xyzw"] (3 / 10)).countP
      (fun g => decide (1 ∈ g)) = 1 ∧
    (∀ g ∈ groupArticles ["aaab", "aaac", "xyzw"] (3 / 10), g ≠ []) :=
  ⟨(c10_group_partition ["aaab", "aaac", "xyzw"] (3 / 10)).1 1 (by decide),
   (c10_group_partition ["aaab", "aaac", "xyzw"] (3 / 10)).2⟩

/-! ### Lemmas for the hard-evict pass -/

theorem countP_lt_range (m N : Nat) :
    (List.range N).countP (fun j => decide (j < m)) = min m N := by
  induction N with
  | zero => simp
  | succ n ih =>
    rw [List.range_succ, List.countP_append, ih]
    by_cases h : n < m
    · simp only [List.countP_cons, List.countP_nil, h, decide_eq_true_eq]
      simp [h]
      omega
    · simp only [List.countP_cons, List.countP_nil, h]
      simp [h]
      omega

/-- C8 (amended): when the items older than the horizon carry popularity
scores 0..N-1 (stored as tenths), one hard-evict pass keeps, among the old
items, exactly those scoring at least the value at descending rank
N * 20 / 100 — that is N * 20 / 100 + 1 items, the top 20 percent rounded
down plus the boundary item itself — deletes the other
N - (N * 20 / 100 + 1) old items, and leaves every younger item in place. -/
theorem c8_hard_evict (db : List Row) (cutoff : String) (N : Nat)
    (hN : 1 ≤ N)
    (hperm : ((db.filter (olderThan cutoff)).map Row.score10).Perm
      ((List.range N).map (fun j : Nat => 10 * (j : Int)))) :
    cleanupOldArticlesBottom80 cutoff db =
      (db.filter (fun r => ! (olderThan cutoff r &&
          decide (r.score10 <
            10 * ((N : Int) - 1 - ((N * 20 / 100 : Nat) : Int))))),
       N - (N * 20 / 100 + 1)) ∧
    ((cleanupOldArticlesBottom80 cutoff db).1.filter
        (olderThan cutoff)).length = N * 20 / 100 + 1 ∧
    (∀ r ∈ db, olderThan cutoff r = false →
        r ∈ (cleanupOldArticlesBottom80 cutoff db).1) := by
  have hkN : N * 20 / 100 ≤ N - 1 := by omega
  have hinj : Function.Injective (fun j : Nat => 10 * (j : Int)) := by
    intro a b h
    simp only at h
    omega
  have hrmNodup : ((List.range N).map (fun j : Nat => 10 * (j : Int))).Nodup :=
    (List.nodup_range N).map hinj
  have htot : ∀ x y : Int,
      (decide (y ≤ x) : Bool) = true ∨ (decide (x ≤ y) : Bool) = true := by
    intro x y
    rcases le_total y x with h | h
    · exact Or.inl (decide_eq_true h)
    · exact Or.inr (decide_eq_true h)
  have htr : ∀ x y z : Int, (decide (y ≤ x) : Bool) = true →
      (decide (z ≤ y) : Bool) = true → (decide (z ≤ x) : Bool) = true := by
    intro x y z h1 h2
    rw [decide_eq_true_eq] at h1 h2 ⊢
    omega
  have hL : sortBy (fun a b : Int => b ≤ a)
      ((db.filter (olderThan cutoff)).map Row.score10) =
      (List.range N).reverse.map (fun j : Nat => 10 * (j : Int)) := by
    apply perm_pairwise_eq (fun a b : Int => fun h1 h2 => by omega :
      ∀ a b : Int, b < a → ¬ (a < b))
    · exact (sortBy_perm _ _).trans
        (hperm.trans ((List.reverse_perm (List.range N)).map _).symm)
    · have hp := @sortBy_pairwise Int (fun a b : Int => decide (b ≤ a))
        htot htr ((db.filter (olderThan cutoff)).map Row.score10)
      have hnd : (sortBy (fun a b : Int => b ≤ a)
          ((db.filter (olderThan cutoff)).map Row.score10)).Nodup :=
        (((sortBy_perm _ _).trans hperm).symm).nodup hrmNodup
      refine (hp.and hnd).imp ?_
      intro a b hab
      rcases hab with ⟨hab1, hab2⟩
      rw [decide_eq_true_eq] at hab1
      omega
    · rw [List.pairwise_map, List.pairwise_reverse]
      exact (List.pairwise_lt_range N).imp (fun h => by omega)
  have hlenOld : (db.filter (olderThan cutoff)).length = N := by
    have h1 := hperm.length_eq
    simpa using h1
  have hidx : N * 20 / 100 < N := by omega
  have hval : ((sortBy (fun a b : Int => b ≤ a)
      ((db.filter (olderThan cutoff)).map Row.score10)).drop
        (N * 20 / 100)).head?.getD 0 =
      10 * ((N : Int) - 1 - ((N * 20 / 100 : Nat) : Int)) := by
    rw [hL, List.head?_drop]
    have hlen2 : N * 20 / 100 <
        ((List.range N).reverse.map (fun j : Nat => 10 * (j : Int))).length := by
      simpa using hidx
    rw [List.getElem?_eq_getElem hlen2]
    rw [List.getElem_map]
    rw [List.getElem_reverse]
    simp only [List.length_reverse, List.length_range, List.getElem_range,
      Option.getD_some]
    omega
  have hdel : List.countP
      (fun s : Int => decide (s <
        10 * ((N : Int) - 1 - ((N * 20 / 100 : Nat) : Int))))
      ((List.range N).map (fun j : Nat => 10 * (j : Int))) =
      N - 1 - N * 20 / 100 := by
    rw [List.countP_map]
    rw [List.countP_congr (q := fun j => decide (j < N - 1 - N * 20 / 100))]
    · rw [countP_lt_range]
      omega
    · intro j hj
      simp only [Function.comp, decide_eq_true_eq]
      omega
  have hcount1 : db.countP (fun r => olderThan cutoff r &&
      decide (r.score10 <
        10 * ((N : Int) - 1 - ((N * 20 / 100 : Nat) : Int)))) =
      List.countP (fun s : Int => decide (s <
        10 * ((N : Int) - 1 - ((N * 20 / 100 : Nat) : Int))))
      ((db.filter (olderThan cutoff)).map Row.score10) := by
    rw [List.countP_map, List.countP_filter]
    apply List.countP_congr
    intro r _
    simp only [Function.comp, Bool.and_eq_true]
    constructor
    · rintro ⟨h1, h2⟩; exact ⟨h2, h1⟩
    · rintro ⟨h1, h2⟩; exact ⟨h2, h1⟩
  have hcount2 : db.countP (fun r => olderThan cutoff r &&
      ! decide (r.score10 <
        10 * ((N : Int) - 1 - ((N * 20 / 100 : Nat) : Int)))) =
      List.countP (fun s : Int => ! decide (s <
        10 * ((N : Int) - 1 - ((N * 20 / 100 : Nat) : Int))))
      ((db.filter (olderThan cutoff)).map Row.score10) := by
    rw [List.countP_map, List.countP_filter]
    apply List.countP_congr
    intro r _
    simp only [Function.comp, Bool.and_eq_true]
    constructor
    · rintro ⟨h1, h2⟩; exact ⟨h2, h1⟩
    · rintro ⟨h1, h2⟩; exact ⟨h2, h1⟩
  have hmain : cleanupOldArticlesBottom80 cutoff db =
      (db.filter (fun r => ! (olderThan cutoff r &&
          decide (r.score10 <
            10 * ((N : Int) - 1 - ((N * 20 / 100 : Nat) : Int))))),
       N - (N * 20 / 100 + 1)) := by
    simp only [cleanupOldArticlesBottom80]
    rw [hlenOld, hval]
    refine Prod.ext rfl ?_
    simp only
    rw [hcount1, hperm.countP_eq, hdel]
    omega
  refine ⟨hmain, ?_, ?_⟩
  · rw [hmain]
    simp only
    rw [← List.countP_eq_length_filter, List.countP_filter]
    have hcong : db.countP (fun a => olderThan cutoff a &&
        ! (olderThan cutoff a && decide (a.score10 <
          10 * ((N : Int) - 1 - ((N * 20 / 100 : Nat) : Int))))) =
        db.countP (fun a => olderThan cutoff a &&
          ! decide (a.score10 <
            10 * ((N : Int) - 1 - ((N * 20 / 100 : Nat) : Int)))) := by
      apply List.countP_congr
      intro r _
      cases h1 : olderThan cutoff r <;>
        cases h2 : decide (r.score10 <
          10 * ((N : Int) - 1 - ((N * 20 / 100 : Nat) : Int))) <;>
        simp [h1, h2]
    rw [hcong, hcount2, hperm.countP_eq]
    have hsplit := List.length_eq_countP_add_countP
      (fun s : Int => decide (s <
        10 * ((N : Int) - 1 - ((N * 20 / 100 : Nat) : Int))))
      ((List.range N).map (fun j : Nat => 10 * (j : Int)))
    rw [hdel] at hsplit
    have hlen3 : ((List.range N).map
        (fun j : Nat => 10 * (j : Int))).length = N := by
      simp
    rw [hlen3] at hsplit
    have hnotP : List.countP (fun s : Int => ! decide (s <
        10 * ((N : Int) - 1 - ((N * 20 / 100 : Nat) : Int))))
        ((List.range N).map (fun j : Nat => 10 * (j : Int))) =
        List.countP (fun s : Int => decide ¬ (decide (s <
          10 * ((N : Int) - 1 - ((N * 20 / 100 : Nat) : Int))) = true))
        ((List.range N).map (fun j : Nat => 10 * (j : Int))) := by
      apply List.countP_congr
      intro s _
      simp
    rw [hnotP]
    omega
  · intro r hr hold
    rw [hmain]
    simp only [List.mem_filter]
    exact ⟨hr, by simp [hold]⟩

/-- C8 witness: ten old items with scores 0..9 — the pass keeps 3 old items
and deletes 7. -/
theorem c8_hard_evict_witness :
    ((cleanupOldArticlesBottom80 cutoff8 evictDb).1.filter
      (olderThan cutoff8)).length = 3 ∧
    (cleanupOldArticlesBottom80 cutoff8 evictDb).2 = 7 := by
  have h := c8_hard_evict evictDb cutoff8 10 (by decide) (by decide)
  refine ⟨by simpa using h.2.1, ?_⟩
  have h2 := congrArg Prod.snd h.1
  simpa using h2

/-- C8 counterexample: with N = 10 old items scored 0..9, the pass leaves 3
items, not the exactly-20-percent count of 2 — the boundary item at the
20th-percentile rank survives as well, so "exactly the top 20%" fails. -/
theorem c8_counterexample :
    (cleanupOldArticlesBottom80 cutoff8 evictDb).1.length = 3 ∧
    ¬ ((cleanupOldArticlesBottom80 cutoff8 evictDb).1.length
        = 10 * 20 / 100) := by
  exact ⟨by decide, by decide⟩

/-! ### Lemmas for identity resolution -/

theorem splitFirst_not_mem {c : Char} :
    ∀ {l : List Char}, c ∉ l → splitFirst c l = (l, none) := by
  intro l
  induction l with
  | nil => intro _; rfl
  | cons x xs ih =>
    intro h
    have hx : ¬ x = c := fun e => h (e ▸ List.mem_cons_self x xs)
    have h2 := ih (fun hm => h (List.mem_cons_of_mem _ hm))
    simp only [splitFirst, if_neg hx, h2]

theorem splitFirst_none {c : Char} :
    ∀ {l a : List Char}, splitFirst c l = (a, none) → a = l ∧ c ∉ l := by
  intro l
  induction l with
  | nil =>
    intro a h
    simp only [splitFirst, Prod.mk.injEq] at h
    exact ⟨h.1.symm, by simp⟩
  | cons x xs ih =>
    intro a h
    by_cases hx : x = c
    · simp only [splitFirst, if_pos hx, Prod.mk.injEq] at h
      exact absurd h.2 (by simp)
    · simp only [splitFirst, if_neg hx] at h
      rcases h2 : splitFirst c xs with ⟨a2, b2⟩
      rw [h2] at h
      simp only [Prod.mk.injEq] at h
      rcases h with ⟨ha, hb⟩
      rcases ih (by rw [h2, hb]) with ⟨ha2, hnm⟩
      constructor
      · rw [← ha, ha2]
      · intro hm
        rcases List.mem_cons.mp hm with e | e
        · exact hx e.symm
        · exact hnm e

theorem splitFirst_some_decomp {c : Char} :
    ∀ {l a b : List Char}, splitFirst c l = (a, some b) →
      l = a ++ c :: b ∧ c ∉ a := by
  intro l
  induction l with
  | nil =>
    intro a b h
    simp only [splitFirst, Prod.mk.injEq] at h
    exact absurd h.2 (by simp)
  | cons x xs ih =>
    intro a b h
    by_cases hx : x = c
    · simp only [splitFirst, if_pos hx, Prod.mk.injEq] at h
      rcases h with ⟨ha, hb⟩
      subst hx
      rw [← ha]
      exact ⟨by simp [Option.some.inj hb], by simp⟩
    · simp only [splitFirst, if_neg hx] at h
      rcases h2 : splitFirst c xs with ⟨a2, b2⟩
      rw [h2] at h
      simp only [Prod.mk.injEq] at h
      rcases h with ⟨ha, hb⟩
      rcases ih (by rw [h2, hb]) with ⟨hd, hnm⟩
      subst ha
      constructor
      · rw [List.cons_append, ← hd]
      · intro hm
        rcases List.mem_cons.mp hm with e | e
        · exact hx e.symm
        · exact hnm e

theorem splitFirst_append_not_mem {c : Char} :
    ∀ {l : List Char} (r : List Char), c ∉ l →
      splitFirst c (l ++ c :: r) = (l, some r) := by
  intro l
  induction l with
  | nil =>
    intro r _
    simp [splitFirst]
  | cons x xs ih =>
    intro r h
    have hx : ¬ x = c := fun e => h (e ▸ List.mem_cons_self x xs)
    have h2 := ih r (fun hm => h (List.mem_cons_of_mem _ hm))
    simp only [List.cons_append, splitFirst, if_neg hx, List.append_eq, h2]

theorem parseUrl_some (s : String) (bh bq sch host path : List Char)
    (f q : Option (List Char))
    (h1 : splitFirst '#' s.data = (bh, f))
    (h2 : splitFirst '?' bh = (bq, q))
    (h3 : parseCore bq = some (sch, host, path)) :
    parseUrl s = some ⟨sch, host, path, q, f⟩ := by
  simp only [parseUrl, h1, h2, h3]

/-- Fragment indifference: the normal form never depends on the parsed
fragment component. -/
theorem normalizeOf_fragment (sch host path : List Char)
    (q f : Option (List Char)) :
    normalizeOf ⟨sch, host, path, q, f⟩ =
      normalizeOf ⟨sch, host, path, q, none⟩ :=
  rfl

set_option maxRecDepth 8000 in
/-- C2 (amended): for every URL in the validated http(s)://host/path
shape — the region where url::Url::parse succeeds and serializes the
input identically — that carries no query string, appending a fragment
or appending "?utm_source=x" leaves the resolved id unchanged; and the ids
of URLs differing in path or in a non-tracking query parameter differ, as
witnessed on the concrete pairs of the repository tests (computed through
the full SHA-1 of the version 5 UUID). -/
theorem c2_resolve (u : String) (p : ParsedUrl)
    (hp : parseUrl u = some p) (hq : p.query = none) :
    (articleIdFromUrl (u ++ "#frag") = articleIdFromUrl u ∧
     articleIdFromUrl (u ++ "?utm_source=x") = articleIdFromUrl u) ∧
    articleIdFromUrl "https://example.com/article/1" ≠
      articleIdFromUrl "https://example.com/article/2" ∧
    articleIdFromUrl "https://example.com/search?q=rust" ≠
      articleIdFromUrl "https://example.com/search?q=go" := by
  refine ⟨?_, by decide, by decide⟩
  rcases h1 : splitFirst '#' u.data with ⟨bh, f⟩
  rcases h2 : splitFirst '?' bh with ⟨bq, q⟩
  rcases h3 : parseCore bq with _ | ⟨sch, host, path⟩
  · have hnone : parseUrl u = none := by
      simp only [parseUrl, h1, h2, h3]
    rw [hnone] at hp
    exact absurd hp (by simp)
  · have hpu : parseUrl u = some ⟨sch, host, path, q, f⟩ :=
      parseUrl_some u bh bq sch host path f q h1 h2 h3
    have hp2 : p = ⟨sch, host, path, q, f⟩ := by
      rw [hpu] at hp
      exact (Option.some.inj hp).symm
    have hqn : q = none := by
      rw [hp2] at hq
      exact hq
    subst hqn
    have hnuu : normalizeUrl u = normalizeOf ⟨sch, host, path, none, f⟩ := by
      simp only [normalizeUrl, hpu]
    have hfilterUtm : ((queryPairsOf "utm_source=x".data).filter
        (fun kv => ! isTracking kv.1)) = [] := by decide
    cases f with
    | some f0 =>
      rcases splitFirst_some_decomp h1 with ⟨hdec, hnm⟩
      have hsplit : ∀ s : List Char,
          splitFirst '#' (u.data ++ s) = (bh, some (f0 ++ s)) := by
        intro s
        rw [hdec, List.append_assoc, List.cons_append]
        exact splitFirst_append_not_mem (f0 ++ s) hnm
      constructor
      · have hparse : parseUrl (u ++ "#frag") =
            some ⟨sch, host, path, none, some (f0 ++ "#frag".data)⟩ :=
          parseUrl_some _ bh bq sch host path _ none
            (by rw [String.data_append]; exact hsplit "#frag".data) h2 h3
        have hn : normalizeUrl (u ++ "#frag") = normalizeUrl u := by
          rw [show normalizeUrl (u ++ "#frag") =
              normalizeOf ⟨sch, host, path, none, some (f0 ++ "#frag".data)⟩
            from by simp only [normalizeUrl, hparse], hnuu]
          exact (normalizeOf_fragment sch host path none _).trans
            (normalizeOf_fragment sch host path none (some f0)).symm
        simp only [articleIdFromUrl, hn]
      · have hparse : parseUrl (u ++ "?utm_source=x") =
            some ⟨sch, host, path, none,
              some (f0 ++ "?utm_source=x".data)⟩ :=
          parseUrl_some _ bh bq sch host path _ none
            (by rw [String.data_append]
                exact hsplit "?utm_source=x".data) h2 h3
        have hn : normalizeUrl (u ++ "?utm_source=x") = normalizeUrl u := by
          rw [show normalizeUrl (u ++ "?utm_source=x") =
              normalizeOf ⟨sch, host, path, none,
                some (f0 ++ "?utm_source=x".data)⟩
            from by simp only [normalizeUrl, hparse], hnuu]
          exact (normalizeOf_fragment sch host path none _).trans
            (normalizeOf_fragment sch host path none (some f0)).symm
        simp only [articleIdFromUrl, hn]
    | none =>
      rcases splitFirst_none h1 with ⟨hbh, hnm⟩
      subst hbh
      rcases splitFirst_none h2 with ⟨hbq, hnmq⟩
      subst hbq
      constructor
      · have h1f : splitFirst '#' (u ++ "#frag").data =
            (u.data, some "frag".data) := by
          rw [String.data_append]
          have hfd : "#frag".data = '#' :: "frag".data := by decide
          rw [hfd]
          exact splitFirst_append_not_mem "frag".data hnm
        have hparse : parseUrl (u ++ "#frag") =
            some ⟨sch, host, path, none, some "frag".data⟩ :=
          parseUrl_some _ u.data u.data sch host path _ none h1f h2 h3
        have hn : normalizeUrl (u ++ "#frag") = normalizeUrl u := by
          rw [show normalizeUrl (u ++ "#frag") =
              normalizeOf ⟨sch, host, path, none, some "frag".data⟩
            from by simp only [normalizeUrl, hparse], hnuu]
          exact normalizeOf_fragment sch host path none _
        simp only [articleIdFromUrl, hn]
      · have h1u : splitFirst '#' (u ++ "?utm_source=x").data =
            (u.data ++ "?utm_source=x".data, none) := by
          rw [String.data_append]
          apply splitFirst_not_mem
          intro hm
          rcases List.mem_append.mp hm with hm | hm
          · exact hnm hm
          · revert hm; decide
        have h2u : splitFirst '?' (u.data ++ "?utm_source=x".data) =
            (u.data, some "utm_source=x".data) := by
          have hqd : "?utm_source=x".data = '?' :: "utm_source=x".data := by
            decide
          rw [hqd]
          exact splitFirst_append_not_mem "utm_source=x".data hnmq
        have hparse : parseUrl (u ++ "?utm_source=x") =
            some ⟨sch, host, path, some "utm_source=x".data, none⟩ :=
          parseUrl_some _ (u.data ++ "?utm_source=x".data) u.data
            sch host path none _ h1u h2u h3
        have hn : normalizeUrl (u ++ "?utm_source=x") = normalizeUrl u := by
          rw [show normalizeUrl (u ++ "?utm_source=x") =
              normalizeOf ⟨sch, host, path, some "utm_source=x".data, none⟩
            from by simp only [normalizeUrl, hparse], hnuu]
          simp only [normalizeOf, Option.getD_some, Option.getD_none,
            hfilterUtm, List.isEmpty_nil, if_true]
          rfl
        simp only [articleIdFromUrl, hn]

set_option maxRecDepth 8000 in
/-- C2 witness: a concrete parseable query-free URL resolves identically
with an appended fragment or an appended tracking parameter. -/
theorem c2_resolve_witness :
    articleIdFromUrl ("https://example.com/article/1" ++ "#frag") =
      articleIdFromUrl "https://example.com/article/1" ∧
    articleIdFromUrl ("https://example.com/article/1" ++ "?utm_source=x") =
      articleIdFromUrl "https://example.com/article/1" :=
  (c2_resolve "https://example.com/article/1"
    ⟨"https".data, "example.com".data, "/article/1".data, none, none⟩
    (by decide) (by decide)).1

set_option maxRecDepth 8000 in
/-- C2 counterexample: appending "?utm_source=x" to a URL that already has
a query string changes the resolved id, so the stated identity does not
hold for every URL. -/
theorem c2_counterexample :
    articleIdFromUrl ("https://example.com/a?q=1" ++ "?utm_source=x") ≠
      articleIdFromUrl "https://example.com/a?q=1" := by
  decide

/-! ### Cursor codec roundtrip -/

theorem b64Index_b64Char : ∀ s : Nat, s < 64 → b64Index (b64Char s) = some s :=
  by decide

theorem base64_roundtrip_aux (n : Nat) :
    ∀ bs : List Nat, bs.length ≤ n → (∀ b ∈ bs, b < 256) →
      base64Decode (base64Encode bs) = some bs := by
  induction n with
  | zero =>
    intro bs hlen _
    have : bs = [] := List.eq_nil_of_length_eq_zero (by omega)
    subst this
    rfl
  | succ n ih =>
    intro bs hlen hb
    match bs with
    | [] => rfl
    | [b0] =>
      have h0 : b0 < 256 := hb b0 (by simp)
      simp only [base64Encode, base64Decode]
      rw [b64Index_b64Char (b0 / 4) (by omega),
          b64Index_b64Char (b0 % 4 * 16) (by omega)]
      simp only
      rw [if_pos (by omega)]
      congr 1
      congr 1
      omega
    | [b0, b1] =>
      have h0 : b0 < 256 := hb b0 (by simp)
      have h1 : b1 < 256 := hb b1 (by simp)
      simp only [base64Encode, base64Decode]
      rw [b64Index_b64Char (b0 / 4) (by omega),
          b64Index_b64Char (b0 % 4 * 16 + b1 / 16) (by omega),
          b64Index_b64Char (b1 % 16 * 4) (by omega)]
      simp only
      rw [if_pos (by omega)]
      congr 1
      congr 1
      · omega
      · congr 1
        omega
    | b0 :: b1 :: b2 :: rest =>
      have h0 : b0 < 256 := hb b0 (by simp)
      have h1 : b1 < 256 := hb b1 (by simp)
      have h2 : b2 < 256 := hb b2 (by simp)
      have hrest := ih rest (by simp at hlen ⊢; omega)
        (fun b hbm => hb b (by simp [hbm]))
      simp only [base64Encode, base64Decode]
      rw [b64Index_b64Char (b0 / 4) (by omega),
          b64Index_b64Char (b0 % 4 * 16 + b1 / 16) (by omega),
          b64Index_b64Char (b1 % 16 * 4 + b2 / 64) (by omega),
          b64Index_b64Char (b2 % 64) (by omega)]
      simp only [hrest]
      congr 1
      congr 1
      · omega
      · congr 1
        · omega
        · congr 1
          omega

theorem base64_roundtrip {bs : List Nat} (hb : ∀ b ∈ bs, b < 256) :
    base64Decode (base64Encode bs) = some bs :=
  base64_roundtrip_aux bs.length bs le_rfl hb

theorem utf8Encode_ascii_list :
    ∀ {l : List Char}, (∀ c ∈ l, c.toNat < 128) →
      ((l.map utf8EncodeChar).flatten) = l.map Char.toNat := by
  intro l
  induction l with
  | nil => intro _; rfl
  | cons c cs ih =>
    intro h
    have hc : c.toNat < 128 := h c (by simp)
    simp only [List.map_cons, List.flatten_cons,
      ih (fun x hx => h x (List.mem_cons_of_mem _ hx))]
    simp only [utf8EncodeChar, if_pos (by omega : c.toNat < 0x80)]
    rfl

theorem charOfNat_toNat {n : Nat} (h : n < 55296) :
    (Char.ofNat n).toNat = n := by
  unfold Char.ofNat
  split
  · rfl
  · exfalso
    apply ‹¬ _›
    left
    omega

theorem char_ofNat_roundtrip {c : Char} (h : c.toNat < 128) :
    Char.ofNat c.toNat = c :=
  char_toNat_inj (by rw [charOfNat_toNat (by omega)])

theorem utf8DecodeLoop_ascii :
    ∀ (l : List Char) (fuel : Nat), l.length ≤ fuel →
      (∀ c ∈ l, c.toNat < 128) →
      utf8DecodeLoop fuel (l.map Char.toNat) = some l := by
  intro l
  induction l with
  | nil => intro fuel _ _; cases fuel <;> rfl
  | cons c cs ih =>
    intro fuel hlen h
    have hc : c.toNat < 128 := h c (by simp)
    match fuel with
    | 0 => simp at hlen
    | fuel + 1 =>
      simp only [List.map_cons, utf8DecodeLoop, if_pos (by omega : c.toNat < 0x80)]
      rw [ih fuel (by simp at hlen ⊢; omega)
        (fun x hx => h x (List.mem_cons_of_mem _ hx))]
      rw [char_ofNat_roundtrip hc]

theorem utf8_roundtrip_ascii {l : List Char} (h : ∀ c ∈ l, c.toNat < 128) :
    utf8Decode (l.map Char.toNat) = some l := by
  unfold utf8Decode
  exact utf8DecodeLoop_ascii l _ (by simp) h

/-- The character constraint under which the JSON string reader is exact. -/
def jsonPlain (l : List Char) : Prop := ∀ c ∈ l, ¬ c = '"' ∧ ¬ c = '\\'

theorem jsonStringChars_plain :
    ∀ {content : List Char}, jsonPlain content →
      ∀ rest, jsonStringChars (content ++ '"' :: rest) = some (content, rest) := by
  intro content
  induction content with
  | nil =>
    intro _ rest
    simp [jsonStringChars]
  | cons c cs ih =>
    intro h rest
    rcases h c (by simp) with ⟨h1, h2⟩
    have h3 := ih (fun x hx => h x (List.mem_cons_of_mem _ hx)) rest
    simp only [List.cons_append, jsonStringChars, if_neg h1, if_neg h2,
      List.append_eq, h3]

theorem jsonPairsLoop_two (k v k2 v2 : List Char) (fuel : Nat)
    (hk : jsonPlain k) (hv : jsonPlain v) (hk2 : jsonPlain k2)
    (hv2 : jsonPlain v2) :
    jsonPairsLoop (fuel + 2)
      ('"' :: (k ++ '"' :: ':' :: '"' :: (v ++ '"' :: ',' :: '"' ::
        (k2 ++ '"' :: ':' :: '"' :: (v2 ++ ['"', '}']))))) =
      some [(String.mk k, String.mk v), (String.mk k2, String.mk v2)] := by
  have e1 := jsonStringChars_plain hk
    (':' :: '"' :: (v ++ '"' :: ',' :: '"' ::
      (k2 ++ '"' :: ':' :: '"' :: (v2 ++ ['"', '}']))))
  have e2 := jsonStringChars_plain hv
    (',' :: '"' :: (k2 ++ '"' :: ':' :: '"' :: (v2 ++ ['"', '}'])))
  have e3 := jsonStringChars_plain hk2
    (':' :: '"' :: (v2 ++ ['"', '}']))
  have e4 : jsonStringChars (v2 ++ ['"', '}']) = some (v2, ['}']) :=
    jsonStringChars_plain hv2 ['}']
  simp only [jsonPairsLoop, e1, e2, e3, e4]

theorem parseJsonObj_quote (l : List Char) :
    parseJsonObj ('{' :: '"' :: l) = jsonPairsLoop (l.length + 2) ('"' :: l) :=
  rfl

theorem decodeCursor_encodeCursor (a : Article)
    (hp : cursorPlain a.publishedAt = true) (hi : cursorPlain a.id = true) :
    decodeCursor (encodeCursor a) = some (a.publishedAt, a.id) := by
  have hpc : ∀ c ∈ a.publishedAt.data,
      32 ≤ c.toNat ∧ c.toNat ≤ 126 ∧ ¬ c = '"' ∧ ¬ c = '\\' := by
    intro c hc
    have := List.all_eq_true.mp hp c hc
    simp only [Bool.and_eq_true, decide_eq_true_eq, bne_iff_ne] at this
    tauto
  have hic : ∀ c ∈ a.id.data,
      32 ≤ c.toNat ∧ c.toNat ≤ 126 ∧ ¬ c = '"' ∧ ¬ c = '\\' := by
    intro c hc
    have := List.all_eq_true.mp hi c hc
    simp only [Bool.and_eq_true, decide_eq_true_eq, bne_iff_ne] at this
    tauto
  have hJ : ("\x7b\"i\":\"" ++ a.id ++ "\",\"p\":\"" ++ a.publishedAt ++
      "\"\x7d").data =
      '{' :: '"' :: (['i'] ++ '"' :: ':' :: '"' :: (a.id.data ++ '"' :: ',' ::
        '"' :: (['p'] ++ '"' :: ':' :: '"' ::
          (a.publishedAt.data ++ ['"', '}'])))) := by
    simp only [String.data_append]
    simp [List.append_assoc]
  have hascii : ∀ c ∈ ("\x7b\"i\":\"" ++ a.id ++ "\",\"p\":\"" ++
      a.publishedAt ++ "\"\x7d").data, c.toNat < 128 := by
    intro c hc
    simp only [String.data_append, List.mem_append] at hc
    have hlit1 : ∀ x ∈ "\x7b\"i\":\"".data, x.toNat < 128 := by decide
    have hlit2 : ∀ x ∈ "\",\"p\":\"".data, x.toNat < 128 := by decide
    have hlit3 : ∀ x ∈ "\"\x7d".data, x.toNat < 128 := by decide
    rcases hc with ((((h | h) | h) | h) | h)
    · exact hlit1 c h
    · exact by have := (hic c h).2.1; omega
    · exact hlit2 c h
    · exact by have := (hpc c h).2.1; omega
    · exact hlit3 c h
  have hbytes : utf8Encode ("\x7b\"i\":\"" ++ a.id ++ "\",\"p\":\"" ++
      a.publishedAt ++ "\"\x7d") =
      ("\x7b\"i\":\"" ++ a.id ++ "\",\"p\":\"" ++ a.publishedAt ++
        "\"\x7d").data.map Char.toNat :=
    utf8Encode_ascii_list hascii
  have hb64 : base64Decode (base64Encode
      (("\x7b\"i\":\"" ++ a.id ++ "\",\"p\":\"" ++ a.publishedAt ++
        "\"\x7d").data.map Char.toNat)) =
      some (("\x7b\"i\":\"" ++ a.id ++ "\",\"p\":\"" ++ a.publishedAt ++
        "\"\x7d").data.map Char.toNat) := by
    apply base64_roundtrip
    intro b hbm
    rcases List.mem_map.mp hbm with ⟨c, hc, rfl⟩
    have := hascii c hc
    omega
  have hutf : utf8Decode (("\x7b\"i\":\"" ++ a.id ++ "\",\"p\":\"" ++
      a.publishedAt ++ "\"\x7d").data.map Char.toNat) =
      some ("\x7b\"i\":\"" ++ a.id ++ "\",\"p\":\"" ++ a.publishedAt ++
        "\"\x7d").data :=
    utf8_roundtrip_ascii hascii
  have hplainI : jsonPlain ['i'] := by
    intro c hc
    simp only [List.mem_singleton] at hc
    subst hc
    exact ⟨by decide, by decide⟩
  have hplainP : jsonPlain ['p'] := by
    intro c hc
    simp only [List.mem_singleton] at hc
    subst hc
    exact ⟨by decide, by decide⟩
  have hplainId : jsonPlain a.id.data := fun c hc => (hic c hc).2.2
  have hplainPub : jsonPlain a.publishedAt.data := fun c hc => (hpc c hc).2.2
  have hpairs := jsonPairsLoop_two ['i'] a.id.data ['p'] a.publishedAt.data
    ((['i'] ++ '"' :: ':' :: '"' :: (a.id.data ++ '"' :: ',' ::
      '"' :: (['p'] ++ '"' :: ':' :: '"' ::
        (a.publishedAt.data ++ ['"', '}'])))).length)
    hplainI hplainId hplainP hplainPub
  have hobj : parseJsonObj ('{' :: '"' :: (['i'] ++ '"' :: ':' :: '"' ::
      (a.id.data ++ '"' :: ',' :: '"' :: (['p'] ++ '"' :: ':' :: '"' ::
        (a.publishedAt.data ++ ['"', '}']))))) =
      some [(String.mk ['i'], String.mk a.id.data),
            (String.mk ['p'], String.mk a.publishedAt.data)] := by
    rw [parseJsonObj_quote]
    exact hpairs
  have hfp : jsonLookup [(String.mk ['i'], String.mk a.id.data),
      (String.mk ['p'], String.mk a.publishedAt.data)] "p" =
      some (String.mk a.publishedAt.data) := rfl
  have hfi : jsonLookup [(String.mk ['i'], String.mk a.id.data),
      (String.mk ['p'], String.mk a.publishedAt.data)] "i" =
      some (String.mk a.id.data) := rfl
  simp only [decodeCursor, encodeCursor, hbytes, hb64, hutf]
  rw [hJ]
  simp only [hobj, hfp, hfi]

/-! ### The pagination key order -/

theorem strLtB_irrefl (s : String) : strLtB s s = false := listLtB_irrefl _

theorem strLtB_trans {a b c : String} (h1 : strLtB a b = true)
    (h2 : strLtB b c = true) : strLtB a c = true := listLtB_trans h1 h2

theorem strLtB_conn {a b : String} (h1 : strLtB a b = false)
    (h2 : strLtB b a = false) : a = b := by
  have hd : a.data = b.data := listLtB_conn h1 h2
  cases a
  cases b
  exact congrArg String.mk hd

theorem strLtB_asymm {a b : String} (h : strLtB a b = true) :
    strLtB b a = false := listLtB_asymm h

theorem pairLtB_irrefl (a : String × String) : pairLtB a a = false := by
  simp [pairLtB, strLtB_irrefl]

theorem pairLtB_trans {a b c : String × String} (h1 : pairLtB a b = true)
    (h2 : pairLtB b c = true) : pairLtB a c = true := by
  simp only [pairLtB, Bool.or_eq_true, Bool.and_eq_true,
    decide_eq_true_eq] at h1 h2 ⊢
  rcases h1 with h1 | ⟨h1e, h1s⟩
  · rcases h2 with h2 | ⟨h2e, h2s⟩
    · exact Or.inl (strLtB_trans h1 h2)
    · exact Or.inl (h2e ▸ h1)
  · rcases h2 with h2 | ⟨h2e, h2s⟩
    · exact Or.inl (h1e ▸ h2)
    · exact Or.inr ⟨h1e.trans h2e, strLtB_trans h1s h2s⟩

theorem pairLtB_asymm {a b : String × String} (h : pairLtB a b = true) :
    pairLtB b a = false := by
  by_contra hc
  have hba : pairLtB b a = true := by
    cases hx : pairLtB b a
    · exact absurd hx hc
    · rfl
  have := pairLtB_trans h hba
  rw [pairLtB_irrefl] at this
  exact Bool.noConfusion this

theorem pairLtB_conn {a b : String × String} (h1 : pairLtB a b = false)
    (h2 : pairLtB b a = false) : a = b := by
  simp only [pairLtB, Bool.or_eq_false_iff, Bool.and_eq_false_iff] at h1 h2
  rcases h1 with ⟨h1f, h1s⟩
  rcases h2 with ⟨h2f, h2s⟩
  have he : a.1 = b.1 := strLtB_conn h1f h2f
  have he2 : a.2 = b.2 := by
    rcases h1s with h1s | h1s
    · exact absurd (decide_eq_true he) (by simpa using h1s)
    · rcases h2s with h2s | h2s
      · exact absurd (decide_eq_true he.symm) (by simpa using h2s)
      · exact strLtB_conn h1s h2s
  exact Prod.ext he he2

theorem rowLeB_iff (r s : Row) : rowLeB r s = true ↔
    (pairLtB (rowKey s) (rowKey r) = true ∨ rowKey s = rowKey r) := by
  simp only [rowLeB, pairLtB, rowKey, Bool.or_eq_true, Bool.and_eq_true,
    decide_eq_true_eq, Prod.mk.injEq]
  constructor
  · rintro (h | ⟨he, hs | hs⟩)
    · exact Or.inl (Or.inl h)
    · exact Or.inl (Or.inr ⟨he, hs⟩)
    · exact Or.inr ⟨he, hs⟩
  · rintro ((h | ⟨he, hs⟩) | ⟨he, hs⟩)
    · exact Or.inl h
    · exact Or.inr ⟨he, Or.inl hs⟩
    · exact Or.inr ⟨he, Or.inr hs⟩

theorem rowLeB_total (r s : Row) : rowLeB r s = true ∨ rowLeB s r = true := by
  cases h1 : pairLtB (rowKey s) (rowKey r)
  · cases h2 : pairLtB (rowKey r) (rowKey s)
    · exact Or.inl ((rowLeB_iff r s).mpr (Or.inr (pairLtB_conn h1 h2)))
    · exact Or.inr ((rowLeB_iff s r).mpr (Or.inl h2))
  · exact Or.inl ((rowLeB_iff r s).mpr (Or.inl h1))

theorem rowLeB_trans {r s t : Row} (h1 : rowLeB r s = true)
    (h2 : rowLeB s t = true) : rowLeB r t = true := by
  rcases (rowLeB_iff r s).mp h1 with ha | ha
  · rcases (rowLeB_iff s t).mp h2 with hb | hb
    · exact (rowLeB_iff r t).mpr (Or.inl (pairLtB_trans hb ha))
    · exact (rowLeB_iff r t).mpr (Or.inl (hb ▸ ha))
  · rcases (rowLeB_iff s t).mp h2 with hb | hb
    · exact (rowLeB_iff r t).mpr (Or.inl (ha ▸ hb))
    · exact (rowLeB_iff r t).mpr (Or.inr (hb.trans ha))

theorem rowKeyGt_asymm (a b : Row) (h : rowKeyGt a b) : ¬ rowKeyGt b a := by
  intro h2
  unfold rowKeyGt at h h2
  rw [pairLtB_asymm h2] at h
  exact Bool.noConfusion h

/-- Distinct stored ids give pairwise-distinct pagination keys. -/
theorem keys_distinct {l : List Row} (hids : (l.map Row.id).Nodup) :
    l.Pairwise (fun r s => rowKey r ≠ rowKey s) := by
  have h1 : l.Pairwise (fun r s => r.id ≠ s.id) := List.pairwise_map.mp hids
  exact h1.imp (fun h he => h (congrArg Prod.snd he))

theorem sortBy_strict {l : List Row}
    (hkeys : l.Pairwise (fun r s => rowKey r ≠ rowKey s)) :
    (sortBy rowLeB l).Pairwise rowKeyGt := by
  have hp := sortBy_pairwise rowLeB_total (fun x y z => rowLeB_trans) l
  have hkeys2 : (sortBy rowLeB l).Pairwise
      (fun r s => rowKey r ≠ rowKey s) :=
    ((sortBy_perm rowLeB l).symm.pairwise_iff
      (fun h he => h he.symm)).mp hkeys
  refine (hp.and hkeys2).imp ?_
  intro r s hrs
  rcases hrs with ⟨h1, h2⟩
  rcases (rowLeB_iff r s).mp h1 with h | h
  · exact h
  · exact absurd h.symm h2

theorem sortBy_filter_comm (l : List Row) (P : Row → Bool)
    (hkeys : l.Pairwise (fun r s => rowKey r ≠ rowKey s)) :
    sortBy rowLeB (l.filter P) = (sortBy rowLeB l).filter P := by
  apply perm_pairwise_eq rowKeyGt_asymm
  · exact (sortBy_perm rowLeB (l.filter P)).trans
      (((sortBy_perm rowLeB l).symm).filter P)
  · exact sortBy_strict (hkeys.sublist (List.filter_sublist l))
  · exact List.Pairwise.filter P (sortBy_strict hkeys)

theorem filter_cursor_sorted {S : List Row} (K : String × String)
    (hs : S.Pairwise rowKeyGt) :
    S.filter (fun r => pairLtB (rowKey r) K) =
      S.dropWhile (fun r => ! pairLtB (rowKey r) K) := by
  induction S with
  | nil => rfl
  | cons a T ih =>
    rcases List.pairwise_cons.mp hs with ⟨ha, hT⟩
    rw [List.filter_cons, List.dropWhile_cons]
    by_cases h : pairLtB (rowKey a) K = true
    · rw [if_pos h, if_neg (by simp [h])]
      congr 1
      rw [List.filter_eq_self]
      intro t ht
      exact pairLtB_trans (ha t ht) h
    · rw [if_neg (by simpa using h), if_pos (by simpa using h)]
      exact ih hT

theorem dropWhile_cursor_at :
    ∀ (S : List Row), S.Pairwise rowKeyGt →
      ∀ (m : Nat) (hm : m < S.length),
      S.dropWhile (fun r => ! pairLtB (rowKey r) (rowKey (S.get ⟨m, hm⟩))) =
        S.drop (m + 1) := by
  intro S
  induction S with
  | nil => intro _ m hm; simp at hm
  | cons a T ih =>
    intro hs m hm
    rcases List.pairwise_cons.mp hs with ⟨ha, hT⟩
    match m with
    | 0 =>
      simp only [List.get]
      rw [List.dropWhile_cons, if_pos (by simp [pairLtB_irrefl])]
      match T with
      | [] => rfl
      | t :: T2 =>
        have hgt : pairLtB (rowKey t) (rowKey a) = true :=
          ha t (List.mem_cons_self t T2)
        rw [List.dropWhile_cons, if_neg (by simp [hgt])]
        rfl
    | m + 1 =>
      have hget : (a :: T).get ⟨m + 1, hm⟩ = T.get ⟨m, by simpa using hm⟩ :=
        List.get_cons_succ

      rw [hget]
      have hmem : T.get ⟨m, by simpa using hm⟩ ∈ T := List.get_mem _ _ _
      have hgt : pairLtB (rowKey (T.get ⟨m, by simpa using hm⟩))
          (rowKey a) = true := ha _ hmem
      rw [List.dropWhile_cons, if_pos (by
        have hgt2 := pairLtB_asymm hgt
        simpa using hgt2)]
      exact ih hT m (by simpa using hm)

/-! ### Query characterization -/

theorem queryArticles_eq (db : List Row) (cat : Option Category)
    (limit : Int) (cursor : Option String) :
    queryArticles db cat limit cursor =
      pageFrom (sortBy rowLeB (matchingRows db cat cursor)) limit := by
  cases cursor <;> rfl

theorem matchingRows_none (db : List Row) (cat : Option Category) :
    matchingRows db cat none = db.filter (catMatch cat) := by
  simp [matchingRows, effectiveCursor]

theorem matchingRows_validCursor (db : List Row) (cat : Option Category)
    (c cp ci : String) (hdec : decodeCursor c = some (cp, ci))
    (hne : cp ≠ "") :
    matchingRows db cat (some c) =
      (db.filter (catMatch cat)).filter
        (fun r => pairLtB (rowKey r) (cp, ci)) := by
  simp only [matchingRows, effectiveCursor, hdec, Option.getD_some]
  rw [List.filter_filter]
  apply List.filter_congr
  intro r _
  rw [if_pos hne]
  rw [Bool.and_comm]
  rfl

theorem pageFrom_small {S : List Row} {limit : Int}
    (h : (S.length : Int) ≤ limit) :
    pageFrom S limit = (S.map rowToArticle, none) := by
  have hlen : S.length ≤ (limit + 1).toNat := by omega
  unfold pageFrom
  rw [List.take_of_length_le hlen]
  rw [if_neg (by simp; omega)]

theorem last_take_map (S : List Row) (k : Nat) (h1 : 0 < k)
    (h2 : k ≤ S.length) :
    ((S.take k).map rowToArticle).getLast? =
      some (rowToArticle (S.get ⟨k - 1, by omega⟩)) := by
  rw [List.getLast?_eq_getElem?]
  have hlen : ((S.take k).map rowToArticle).length = k := by
    simp
    omega
  rw [hlen]
  rw [List.getElem?_eq_getElem (by simp; omega)]
  congr 1
  rw [List.getElem_map]
  congr 1
  rw [List.getElem_take]
  simp [List.get_eq_getElem]

theorem pageFrom_big {S : List Row} {limit : Int} (h1 : 1 ≤ limit)
    (h : limit < (S.length : Int)) (hb : limit.toNat - 1 < S.length) :
    pageFrom S limit = ((S.take limit.toNat).map rowToArticle,
      some (encodeCursor (rowToArticle (S.get ⟨limit.toNat - 1, hb⟩)))) := by
  unfold pageFrom
  have hlen1 : limit.toNat + 1 ≤ S.length := by omega
  have hfetched : ((S.take (limit + 1).toNat).map rowToArticle).length =
      limit.toNat + 1 := by
    simp
    omega
  rw [if_pos (by rw [hfetched]; omega)]
  have htt : ((S.take (limit + 1).toNat).map rowToArticle).take limit.toNat =
      (S.take limit.toNat).map rowToArticle := by
    rw [← List.map_take, List.take_take]
    congr 2
    omega
  rw [htt]
  rw [last_take_map S limit.toNat (by omega) (by omega)]
  rfl

/-! ### Pagination chaining: a query at a stored cursor resumes right
after that row in the global sorted order. -/

theorem matchingRows_sublist (db : List Row) (cat : Option Category)
    (cursor : Option String) : List.Sublist (matchingRows db cat cursor) db := by
  unfold matchingRows
  exact List.filter_sublist db

theorem matchingRows_catMatch (db : List Row) (cat : Option Category)
    (cursor : Option String) (r : Row) (h : r ∈ matchingRows db cat cursor) :
    catMatch cat r = true := by
  unfold matchingRows at h
  have h2 := (List.mem_filter.mp h).2
  simp only [Bool.and_eq_true] at h2
  exact h2.1

theorem paginate_step_none (db : List Row) (cat : Option Category)
    (limit : Int) (fuel : Nat) (cur : Option String) (page : List Article)
    (h : queryArticles db cat limit cur = (page, none)) :
    paginate db cat limit (fuel + 1) cur = page := by
  simp only [paginate, h]

theorem paginate_step_some (db : List Row) (cat : Option Category)
    (limit : Int) (fuel : Nat) (cur : Option String) (page : List Article)
    (c : String) (h : queryArticles db cat limit cur = (page, some c)) :
    paginate db cat limit (fuel + 1) cur =
      page ++ paginate db cat limit fuel (some c) := by
  simp only [paginate, h]

theorem query_at_cursor (db : List Row) (cat : Option Category) (limit : Int)
    (hids : (db.map Row.id).Nodup) (m : Nat)
    (hm : m < (sortBy rowLeB (db.filter (catMatch cat))).length)
    (hp : cursorPlain
      ((sortBy rowLeB (db.filter (catMatch cat))).get ⟨m, hm⟩).publishedAt =
      true)
    (hi : cursorPlain
      ((sortBy rowLeB (db.filter (catMatch cat))).get ⟨m, hm⟩).id = true)
    (hne : ((sortBy rowLeB (db.filter (catMatch cat))).get
      ⟨m, hm⟩).publishedAt ≠ "") :
    queryArticles db cat limit (some (encodeCursor (rowToArticle
        ((sortBy rowLeB (db.filter (catMatch cat))).get ⟨m, hm⟩)))) =
      pageFrom ((sortBy rowLeB (db.filter (catMatch cat))).drop (m + 1))
        limit := by
  have hkeys : db.Pairwise (fun r s => rowKey r ≠ rowKey s) :=
    keys_distinct hids
  have hS : (sortBy rowLeB (db.filter (catMatch cat))).Pairwise rowKeyGt :=
    sortBy_strict (hkeys.sublist (List.filter_sublist db))
  have hdec := decodeCursor_encodeCursor
    (rowToArticle ((sortBy rowLeB (db.filter (catMatch cat))).get ⟨m, hm⟩))
    hp hi
  rw [queryArticles_eq,
    matchingRows_validCursor db cat _ _ _ hdec hne,
    sortBy_filter_comm _ _ (hkeys.sublist (List.filter_sublist db)),
    filter_cursor_sorted _ hS]
  congr 1
  exact dropWhile_cursor_at _ hS m hm

theorem paginate_rest (db : List Row) (cat : Option Category) (limit : Int)
    (hlim : 1 ≤ limit) (hids : (db.map Row.id).Nodup)
    (hplain : ∀ r ∈ db, cursorPlain r.publishedAt = true ∧
      cursorPlain r.id = true ∧ r.publishedAt ≠ "") :
    ∀ (fuel m : Nat)
      (hm : m < (sortBy rowLeB (db.filter (catMatch cat))).length),
      (sortBy rowLeB (db.filter (catMatch cat))).length - m ≤ fuel →
      paginate db cat limit fuel (some (encodeCursor (rowToArticle
          ((sortBy rowLeB (db.filter (catMatch cat))).get ⟨m, hm⟩)))) =
        ((sortBy rowLeB (db.filter (catMatch cat))).drop (m + 1)).map
          rowToArticle := by
  intro fuel
  induction fuel with
  | zero => intro m hm hf; omega
  | succ fuel ih =>
    intro m hm hf
    have hmem : (sortBy rowLeB (db.filter (catMatch cat))).get ⟨m, hm⟩ ∈
        db :=
      List.mem_of_mem_filter
        ((sortBy_perm rowLeB (db.filter (catMatch cat))).mem_iff.mp
          (List.get_mem _ _ _))
    obtain ⟨hp, hi, hne⟩ := hplain _ hmem
    have hq := query_at_cursor db cat limit hids m hm hp hi hne
    have hlen2 :
        ((sortBy rowLeB (db.filter (catMatch cat))).drop (m + 1)).length =
          (sortBy rowLeB (db.filter (catMatch cat))).length - (m + 1) :=
      List.length_drop _ _
    by_cases hbig : limit <
        ((((sortBy rowLeB (db.filter (catMatch cat))).drop
          (m + 1)).length : Int))
    · have hb : limit.toNat - 1 <
          ((sortBy rowLeB (db.filter (catMatch cat))).drop (m + 1)).length :=
        by omega
      have hqb : queryArticles db cat limit (some (encodeCursor (rowToArticle
          ((sortBy rowLeB (db.filter (catMatch cat))).get ⟨m, hm⟩)))) =
          ((((sortBy rowLeB (db.filter (catMatch cat))).drop
              (m + 1)).take limit.toNat).map rowToArticle,
           some (encodeCursor (rowToArticle (((sortBy rowLeB
              (db.filter (catMatch cat))).drop (m + 1)).get
              ⟨limit.toNat - 1, hb⟩)))) := by
        rw [hq, pageFrom_big hlim hbig hb]
      rw [paginate_step_some db cat limit fuel _ _ _ hqb]
      have h2 : m + 1 + (limit.toNat - 1) <
          (sortBy rowLeB (db.filter (catMatch cat))).length := by omega
      have hgetd : ((sortBy rowLeB (db.filter (catMatch cat))).drop
          (m + 1)).get ⟨limit.toNat - 1, hb⟩ =
          (sortBy rowLeB (db.filter (catMatch cat))).get
            ⟨m + 1 + (limit.toNat - 1), h2⟩ := by
        simp only [List.get_eq_getElem]
        exact List.getElem_drop _
      rw [hgetd]
      rw [ih (m + 1 + (limit.toNat - 1)) h2 (by omega)]
      have h3 : m + 1 + (limit.toNat - 1) + 1 = (m + 1) + limit.toNat := by
        omega
      rw [h3, ← List.drop_drop limit.toNat (m + 1)
        (sortBy rowLeB (db.filter (catMatch cat))),
        ← List.map_append, List.take_append_drop]
    · have hqs : queryArticles db cat limit (some (encodeCursor (rowToArticle
          ((sortBy rowLeB (db.filter (catMatch cat))).get ⟨m, hm⟩)))) =
          ((((sortBy rowLeB (db.filter (catMatch cat))).drop
              (m + 1)).map rowToArticle), none) := by
        rw [hq, pageFrom_small (by omega)]
      rw [paginate_step_none db cat limit fuel _ _ hqs]

/-- C3: with no intervening writes, paging through the store with a fixed
limit via successive cursors, starting with no cursor and following each
returned next_cursor until none is returned, yields exactly the page of one
query whose limit is the total item count: the full category-scoped store
in published_at descending, id descending order, and that sequence is
duplicate-free. Stated for stores with distinct ids whose rows carry plain
ASCII cursor fields and a nonempty published_at, as UUID ids and RFC3339
timestamps do. -/
theorem c3_pagination_complete (db : List Row) (cat : Option Category)
    (limit : Int) (hlim : 1 ≤ limit) (hids : (db.map Row.id).Nodup)
    (hplain : ∀ r ∈ db, cursorPlain r.publishedAt = true ∧
      cursorPlain r.id = true ∧ r.publishedAt ≠ "") :
    paginate db cat limit (db.length + 1) none =
      (queryArticles db cat (db.length : Int) none).1 ∧
    paginate db cat limit (db.length + 1) none =
      (sortBy rowLeB (db.filter (catMatch cat))).map rowToArticle ∧
    ((paginate db cat limit (db.length + 1) none).map Article.id).Nodup := by
  have hlen : (sortBy rowLeB (db.filter (catMatch cat))).length ≤
      db.length := by
    rw [(sortBy_perm rowLeB (db.filter (catMatch cat))).length_eq]
    exact List.length_filter_le _ db
  have hone : (queryArticles db cat (db.length : Int) none).1 =
      (sortBy rowLeB (db.filter (catMatch cat))).map rowToArticle := by
    rw [queryArticles_eq, matchingRows_none,
      pageFrom_small (by exact_mod_cast hlen)]
  have hmain : paginate db cat limit (db.length + 1) none =
      (sortBy rowLeB (db.filter (catMatch cat))).map rowToArticle := by
    by_cases hbig : limit <
        (((sortBy rowLeB (db.filter (catMatch cat))).length : Int))
    · have hb : limit.toNat - 1 <
          (sortBy rowLeB (db.filter (catMatch cat))).length := by omega
      have hq0 : queryArticles db cat limit none =
          (((sortBy rowLeB (db.filter (catMatch cat))).take
              limit.toNat).map rowToArticle,
           some (encodeCursor (rowToArticle ((sortBy rowLeB
              (db.filter (catMatch cat))).get ⟨limit.toNat - 1, hb⟩)))) := by
        rw [queryArticles_eq, matchingRows_none, pageFrom_big hlim hbig hb]
      rw [paginate_step_some db cat limit db.length _ _ _ hq0]
      rw [paginate_rest db cat limit hlim hids hplain db.length
        (limit.toNat - 1) hb (by omega)]
      have h3 : limit.toNat - 1 + 1 = limit.toNat := by omega
      rw [h3, ← List.map_append, List.take_append_drop]
    · have hq0 : queryArticles db cat limit none =
          ((sortBy rowLeB (db.filter (catMatch cat))).map rowToArticle,
            none) := by
        rw [queryArticles_eq, matchingRows_none, pageFrom_small (by omega)]
      rw [paginate_step_none db cat limit db.length _ _ hq0]
  refine ⟨?_, hmain, ?_⟩
  · rw [hmain, hone]
  · rw [hmain, List.map_map]
    have hsub : ((db.filter (catMatch cat)).map Row.id).Nodup :=
      List.Nodup.sublist (List.Sublist.map Row.id (List.filter_sublist db))
        hids
    have hperm := (sortBy_perm rowLeB (db.filter (catMatch cat))).map Row.id
    exact hperm.nodup_iff.mpr hsub

theorem c3_pagination_complete_witness :
    ((1 : Int) ≤ 2 ∧ (sampleDb.map Row.id).Nodup ∧
      ∀ r ∈ sampleDb, cursorPlain r.publishedAt = true ∧
        cursorPlain r.id = true ∧ r.publishedAt ≠ "") ∧
    (paginate sampleDb (some Category.tech) 2 (sampleDb.length + 1) none =
        (queryArticles sampleDb (some Category.tech)
          (sampleDb.length : Int) none).1 ∧
      paginate sampleDb (some Category.tech) 2 (sampleDb.length + 1) none =
        (sortBy rowLeB (sampleDb.filter
          (catMatch (some Category.tech)))).map rowToArticle ∧
      ((paginate sampleDb (some Category.tech) 2 (sampleDb.length + 1)
        none).map Article.id).Nodup) :=
  ⟨⟨by decide, by decide, by decide⟩,
    c3_pagination_complete sampleDb (some Category.tech) 2 (by decide)
      (by decide) (by decide)⟩

/-- C4 (amended): in the embedded (SQLite) backend, for every store state,
optional category, limit in 1..100 and optional cursor, the query returns
exactly the first limit items of the matching set (category scope plus the
cursor keyset condition) in published_at descending, id descending order:
the page is that sorted prefix, holds at most limit items, is strictly
descending on the (published_at, id) key, every returned item is a
matching stored row respecting the category scope, and next_cursor is
built from the last returned item exactly when at least one more matching
item follows the page, and is omitted at end of data. The cloud backend
does not share the limit + 1 mechanism or the iff-cursor semantics: see
the counterexample. -/
theorem c4_query_page (db : List Row) (cat : Option Category) (limit : Int)
    (cursor : Option String) (hlim1 : 1 ≤ limit) (hlim2 : limit ≤ 100)
    (hids : (db.map Row.id).Nodup) :
    (queryArticles db cat limit cursor).1 =
      ((sortBy rowLeB (matchingRows db cat cursor)).take limit.toNat).map
        rowToArticle ∧
    (queryArticles db cat limit cursor).1.length ≤ limit.toNat ∧
    (queryArticles db cat limit cursor).1.Pairwise artKeyGt ∧
    (∀ a ∈ (queryArticles db cat limit cursor).1,
      ∃ r, r ∈ matchingRows db cat cursor ∧ catMatch cat r = true ∧
        a = rowToArticle r) ∧
    (queryArticles db cat limit cursor).2 =
      (if limit < ((matchingRows db cat cursor).length : Int) then
        (queryArticles db cat limit cursor).1.getLast?.map encodeCursor
       else none) := by
  have hS : (sortBy rowLeB (matchingRows db cat cursor)).Pairwise
      rowKeyGt :=
    sortBy_strict ((keys_distinct hids).sublist
      (matchingRows_sublist db cat cursor))
  have hlenS : (sortBy rowLeB (matchingRows db cat cursor)).length =
      (matchingRows db cat cursor).length :=
    (sortBy_perm rowLeB (matchingRows db cat cursor)).length_eq
  rw [queryArticles_eq]
  by_cases hbig : limit < ((matchingRows db cat cursor).length : Int)
  · have hbig2 : limit <
        (((sortBy rowLeB (matchingRows db cat cursor)).length : Int)) := by
      omega
    have hb : limit.toNat - 1 <
        (sortBy rowLeB (matchingRows db cat cursor)).length := by omega
    rw [pageFrom_big hlim1 hbig2 hb]
    refine ⟨rfl, ?_, ?_, ?_, ?_⟩
    · show (((sortBy rowLeB (matchingRows db cat cursor)).take
          limit.toNat).map rowToArticle).length ≤ limit.toNat
      simp only [List.length_map, List.length_take]
      omega
    · show (((sortBy rowLeB (matchingRows db cat cursor)).take
          limit.toNat).map rowToArticle).Pairwise artKeyGt
      rw [List.pairwise_map]
      exact (List.Pairwise.sublist (List.take_sublist _ _) hS).imp
        (fun h => h)
    · intro a ha
      rcases List.mem_map.mp ha with ⟨r, hr, rfl⟩
      have hrM : r ∈ matchingRows db cat cursor :=
        (sortBy_perm rowLeB (matchingRows db cat cursor)).mem_iff.mp
          (List.mem_of_mem_take hr)
      exact ⟨r, hrM, matchingRows_catMatch db cat cursor r hrM, rfl⟩
    · show some (encodeCursor (rowToArticle ((sortBy rowLeB
          (matchingRows db cat cursor)).get ⟨limit.toNat - 1, hb⟩))) =
        (if limit < ((matchingRows db cat cursor).length : Int) then
          (((sortBy rowLeB (matchingRows db cat cursor)).take
            limit.toNat).map rowToArticle).getLast?.map encodeCursor
         else none)
      rw [if_pos hbig]
      rw [last_take_map _ limit.toNat (by omega) (by omega)]
      rfl
  · have hsmall : (((sortBy rowLeB
        (matchingRows db cat cursor)).length : Int)) ≤ limit := by omega
    rw [pageFrom_small hsmall]
    refine ⟨?_, ?_, ?_, ?_, ?_⟩
    · show (sortBy rowLeB (matchingRows db cat cursor)).map rowToArticle =
        ((sortBy rowLeB (matchingRows db cat cursor)).take
          limit.toNat).map rowToArticle
      rw [List.take_of_length_le (by omega)]
    · show ((sortBy rowLeB (matchingRows db cat cursor)).map
          rowToArticle).length ≤ limit.toNat
      simp only [List.length_map]
      omega
    · show ((sortBy rowLeB (matchingRows db cat cursor)).map
          rowToArticle).Pairwise artKeyGt
      rw [List.pairwise_map]
      exact hS.imp (fun h => h)
    · intro a ha
      rcases List.mem_map.mp ha with ⟨r, hr, rfl⟩
      have hrM : r ∈ matchingRows db cat cursor :=
        (sortBy_perm rowLeB (matchingRows db cat cursor)).mem_iff.mp hr
      exact ⟨r, hrM, matchingRows_catMatch db cat cursor r hrM, rfl⟩
    · show (none : Option String) =
        (if limit < ((matchingRows db cat cursor).length : Int) then
          ((sortBy rowLeB (matchingRows db cat cursor)).map
            rowToArticle).getLast?.map encodeCursor
         else none)
      rw [if_neg hbig]

theorem c4_query_page_witness :
    ((1 : Int) ≤ 2 ∧ (2 : Int) ≤ 100 ∧ (sampleDb.map Row.id).Nodup) ∧
    ((queryArticles sampleDb (some Category.tech) 2 none).1 =
        ((sortBy rowLeB (matchingRows sampleDb (some Category.tech)
          none)).take (2 : Int).toNat).map rowToArticle ∧
      (queryArticles sampleDb (some Category.tech) 2 none).1.length ≤
        (2 : Int).toNat ∧
      (queryArticles sampleDb (some Category.tech) 2
        none).1.Pairwise artKeyGt ∧
      (∀ a ∈ (queryArticles sampleDb (some Category.tech) 2 none).1,
        ∃ r, r ∈ matchingRows sampleDb (some Category.tech) none ∧
          catMatch (some Category.tech) r = true ∧ a = rowToArticle r) ∧
      (queryArticles sampleDb (some Category.tech) 2 none).2 =
        (if (2 : Int) < ((matchingRows sampleDb (some Category.tech)
            none).length : Int) then
          (queryArticles sampleDb (some Category.tech) 2
            none).1.getLast?.map encodeCursor
         else none)) :=
  ⟨⟨by decide, by decide, by decide⟩,
    c4_query_page sampleDb (some Category.tech) 2 none (by decide)
      (by decide) (by decide)⟩

/-- C4 counterexample: the cloud backend violates the claimed mechanism
and cursor semantics. A store holding exactly limit matching items fetches
them in one page with no further matching item, yet query_articles still
returns a next_cursor — DynamoDB reports last_evaluated_key whenever the
read stopped at the limit, also at the exact end of data — and the page
reached through that cursor is empty; the embedded backend on the same
data omits the cursor. So in the cloud backend next_cursor is not emitted
if and only if at least one more matching item follows the page. -/
theorem c4_counterexample :
    dynamoQueryArticles
        [mkArticle "a1" "2024-01-01T00:00:00+00:00" Category.tech]
        (some Category.tech) 1 none =
      ([mkArticle "a1" "2024-01-01T00:00:00+00:00" Category.tech],
        some "2024-01-01T00:00:00+00:00#a1") ∧
    dynamoQueryArticles
        [mkArticle "a1" "2024-01-01T00:00:00+00:00" Category.tech]
        (some Category.tech) 1 (some "2024-01-01T00:00:00+00:00#a1") =
      ([], none) ∧
    (queryArticles
        [newRow (mkArticle "a1" "2024-01-01T00:00:00+00:00" Category.tech)]
        (some Category.tech) 1 none).2 = none := by
  decide

end NewsXyz
